import Mathlib

set_option linter.unusedVariables false

/-!
Shallow embedding of the plan/execute core of the camino-gpt-basic repository:
plan schema validation (src/lib/schemas.ts, src/lib/executor.ts), the deterministic
executor (src/lib/executor.ts), pause normalization (src/lib/planner.ts), the
stage reference table (src/lib/stages/frances.ts), the drawRoute stage coercion
(src/lib/toolRegistry.ts), and the marker reconciliation of the request handler
(src/app/api/chat/route.ts).  Machine numbers are modelled as rationals; tool
execution, which performs network calls, is modelled by an oracle indexed by
step index and attempt number.
-/

/-- JSON-like values: untrusted plan candidates and open per-tool args. -/
inductive JVal where
  | jnull
  | jbool (b : Bool)
  | jnum (q : ℚ)
  | jstr (s : String)
  | jarr (xs : List JVal)
  | jobj (fields : List (String × JVal))

/-- First-match lookup of a key in a JSON object's field list. -/
def jlookup (fields : List (String × JVal)) (k : String) : Option JVal :=
  match fields with
  | [] => none
  | (k', v) :: rest => if k' = k then some v else jlookup rest k

/-- Member access `v[k]` on a JSON value: `undefined` (none) unless an object. -/
def JVal.getField : JVal → String → Option JVal
  | .jobj fs, k => jlookup fs k
  | _, _ => none

/-- JavaScript falsiness of a JSON value (null, false, 0, ""). -/
def jsFalsy : JVal → Bool
  | .jnull => true
  | .jbool b => !b
  | .jnum q => q == 0
  | .jstr s => s == ""
  | _ => false

/-- JavaScript truthiness of a possibly-absent value (`undefined` is falsy). -/
def jsTruthyOpt (v : Option JVal) : Bool :=
  match v with
  | some x => !jsFalsy x
  | none => false

/-- A possibly-absent string is falsy when absent (`undefined`) or empty (`""`). -/
def jsStrFalsy (s : Option String) : Bool :=
  match s with
  | some v => v == ""
  | none => true

/-- Read a string-valued field, `none` for absent or non-string values. -/
def asStr (v : Option JVal) : Option String :=
  match v with
  | some (.jstr s) => some s
  | _ => none

/-- Read a number-valued field (`typeof x === "number"`), `none` otherwise. -/
def asNum (v : Option JVal) : Option ℚ :=
  match v with
  | some (.jnum q) => some q
  | _ => none

/-- The seven recognized tool names of `ToolName` in src/lib/schemas.ts. -/
inductive ToolName where
  | mapFocus
  | mapDrawRoute
  | mapAddMarkers
  | ragSearch
  | placesSearch
  | elevationProfile
  | exportGpx
deriving DecidableEq, Repr

def ToolName.str : ToolName → String
  | .mapFocus => "map.focus"
  | .mapDrawRoute => "map.drawRoute"
  | .mapAddMarkers => "map.addMarkers"
  | .ragSearch => "rag.search"
  | .placesSearch => "places.search"
  | .elevationProfile => "elevation.profile"
  | .exportGpx => "export.gpx"

def toolNameOfString (s : String) : Option ToolName :=
  if s = "map.focus" then some .mapFocus
  else if s = "map.drawRoute" then some .mapDrawRoute
  else if s = "map.addMarkers" then some .mapAddMarkers
  else if s = "rag.search" then some .ragSearch
  else if s = "places.search" then some .placesSearch
  else if s = "elevation.profile" then some .elevationProfile
  else if s = "export.gpx" then some .exportGpx
  else none

/-- Specialist tags of `PlanSchema.specialist` in src/lib/schemas.ts. -/
inductive Specialist where
  | navigator
  | concierge
  | safety
  | logistics
deriving DecidableEq, Repr

def Specialist.str : Specialist → String
  | .navigator => "navigator"
  | .concierge => "concierge"
  | .safety => "safety"
  | .logistics => "logistics"

def specialistOfString (s : String) : Option Specialist :=
  if s = "navigator" then some .navigator
  else if s = "concierge" then some .concierge
  else if s = "safety" then some .safety
  else if s = "logistics" then some .logistics
  else none

/-- Optional resource budget of `PlanSchema.budget` in src/lib/schemas.ts. -/
structure Budget where
  maxSteps : Option ℤ := none
  maxTokens : Option ℤ := none
deriving DecidableEq, Repr

/-- A validated plan step (`PlanStep` in src/lib/schemas.ts). -/
structure Step where
  id : String
  tool : ToolName
  args : JVal := .jobj []
  why : Option String := none
  pauseForUser : Option Bool := none

/-- A validated plan (`PlanSchema` in src/lib/schemas.ts). -/
structure Plan where
  steps : List Step
  specialist : Option Specialist := none
  budget : Option Budget := none

/--
One itinerary day.  JavaScript objects are structural, and the executor's
`ItinDay` (fields day, from, to, distanceKm) and route.ts's `Leg` (fields day,
from, to, km, toLat, toLon, fromLat, fromLon) flow through the same untyped
slots, so a single structure carries both field sets; absent fields are `none`.
`lfrom`/`lto` embed the JS fields `from`/`to` (`from` is a Lean keyword).
-/
structure Leg where
  day : ℤ
  lfrom : Option String := none
  lto : Option String := none
  km : Option ℚ := none
  distanceKm : Option ℚ := none
  toLat : Option ℚ := none
  toLon : Option ℚ := none
  fromLat : Option ℚ := none
  fromLon : Option ℚ := none
deriving DecidableEq, Repr

/-- A map marker (route.ts `Marker`).  Call sites construct lat/lon from
coordinates guaranteed numeric by `hasCoords` or by construction. -/
structure Marker where
  lat : ℚ
  lon : ℚ
  title : Option String := none
  subtitle : Option String := none
deriving DecidableEq, Repr

/-- Discriminated UI actions (the `AgentAction` wire variants).  The geojson
payload and markers of executor-produced actions are carried explicitly so the
request handler's filtering and coalescing can be stated. -/
inductive AgentAction where
  | clearRoute
  | drawRoute (geojson : JVal)
  | focus (lat lon : ℚ) (zoom : Option ℚ)
  | drawMarkers (markers : List Marker) (replace : Option Bool)

def AgentAction.isDrawMarkers : AgentAction → Bool
  | .drawMarkers _ _ => true
  | _ => false

/-- Per-step log entry (`StepLog` in src/lib/executor.ts).  The wall-clock
`latencyMs` field is not representable in a pure embedding and is omitted. -/
inductive StepStatus where
  | ok
  | error
  | skipped
deriving DecidableEq, Repr

structure StepLog where
  idx : Nat
  id : String
  tool : ToolName
  status : StepStatus
  errorCode : Option String := none
deriving DecidableEq, Repr

/-- Result of one `runTool` attempt under its timeout: either the tool's
`{ uiActions?, itinerary? }` payload or a thrown error / timeout message. -/
inductive Outcome where
  | ok (uiActions : List AgentAction) (itin : Option (List Leg))
  | err (msg : String)

/-- Result shape of `executePlan` (`ExecuteResult` in src/lib/executor.ts). -/
structure ExecResult where
  actions : List AgentAction
  nextIndex : Nat
  paused : Bool
  logs : List StepLog
  itinerary : Option (List Leg)

/-- True first index at or after `i0` whose step has a truthy `pauseForUser`
(mirrors `plan.steps.slice(startIndex).findIndex(s => s.pauseForUser)`). -/
def findPauseAux (i0 : Nat) : List Step → Option Nat
  | [] => none
  | s :: rest =>
    if s.pauseForUser = some true then some i0 else findPauseAux (i0 + 1) rest

/-- `findPauseIndex` of src/lib/executor.ts: `-1` is modelled as `none`. -/
def findPauseIndex (plan : Plan) (startIndex : Nat) : Option Nat :=
  findPauseAux startIndex (plan.steps.drop startIndex)

/-- `planHasPause` of src/lib/executor.ts. -/
def planHasPause (plan : Plan) (startIndex : Nat) : Bool :=
  (plan.steps.drop startIndex).any (fun s => s.pauseForUser = some true)

/--
The retry loop of `executePlan` (`while attempt <= maxRetries && !success`):
`exec i a` is the oracle outcome of attempt `a` of step index `i` under its
timeout; the first successful attempt among `0..maxRetries` wins, `none` when
every attempt fails.
-/
def firstOkAttempt (exec : Nat → Nat → Outcome) (maxRetries : Nat) (i : Nat) :
    Option (List AgentAction × Option (List Leg)) :=
  (List.range (maxRetries + 1)).findSome? (fun a =>
    match exec i a with
    | .ok u it => some (u, it)
    | .err _ => none)

/-- The `errorMsg` recorded on permanent failure: the message of the final
attempt (`attempt = maxRetries`), which is the last one the loop makes. -/
def lastErrMsg (exec : Nat → Nat → Outcome) (maxRetries : Nat) (i : Nat) :
    Option String :=
  match exec i maxRetries with
  | .err m => some m
  | .ok _ _ => none

/-- UI actions contributed by step `i` when it eventually succeeds. -/
def okActions (exec : Nat → Nat → Outcome) (maxRetries : Nat) (i : Nat) :
    List AgentAction :=
  match firstOkAttempt exec maxRetries i with
  | some (u, _) => u
  | none => []

/-- Itinerary surfaced by step `i` when it eventually succeeds (`some []` when
the tool returned an empty array, which still overwrites). -/
def okItin (exec : Nat → Nat → Outcome) (maxRetries : Nat) (i : Nat) :
    Option (List Leg) :=
  match firstOkAttempt exec maxRetries i with
  | some (_, it) => it
  | none => none

/-- `itinerary = res.itinerary` only `if (Array.isArray(res?.itinerary))`:
a surfaced array overwrites, otherwise the previous value is kept. -/
def overwriteItin (old new : Option (List Leg)) : Option (List Leg) :=
  match new with
  | some x => some x
  | none => old

/-- Outcome of the executor's main loop: an early `return` from a permanently
failed step, or normal completion at the stop boundary. -/
inductive LoopOut where
  | errored (actions : List AgentAction) (nextIndex : Nat) (logs : List StepLog)
      (itin : Option (List Leg))
  | completed (actions : List AgentAction) (nextIndex : Nat) (logs : List StepLog)
      (itin : Option (List Leg))

/--
The main loop of `executePlan` (`for (; i < stopAt; i++)`), written over the
slice of steps with indices `i, i+1, ...` (the caller passes the slice
`plan.steps[startIndex..stopAt)` so that list position matches loop index).
Skipped steps log `skipped`; a step failing all attempts returns early with
status `error`; a successful step appends its UI actions, overwrites the
working itinerary when one is surfaced, and logs `ok`.
-/
def runSteps (exec : Nat → Nat → Outcome) (skip : List String) (maxRetries : Nat) :
    Nat → List Step → List AgentAction → List StepLog → Option (List Leg) → LoopOut
  | i, [], acts, logs, itin => .completed acts i logs itin
  | i, step :: rest, acts, logs, itin =>
    if step.id ∈ skip then
      runSteps exec skip maxRetries (i + 1) rest acts
        (logs ++ [{ idx := i, id := step.id, tool := step.tool, status := .skipped }]) itin
    else
      match firstOkAttempt exec maxRetries i with
      | some (u, itNew) =>
        runSteps exec skip maxRetries (i + 1) rest (acts ++ u)
          (logs ++ [{ idx := i, id := step.id, tool := step.tool, status := .ok }])
          (overwriteItin itin itNew)
      | none =>
        .errored acts i
          (logs ++ [{ idx := i, id := step.id, tool := step.tool, status := .error,
                      errorCode := lastErrMsg exec maxRetries i }]) itin

/-- Parse `" to "`-separated stage strings: `[f, t] = st.stage.split(" to ")`. -/
def splitStageString (s : String) : Option (String × String) :=
  match s.splitOn " to " with
  | f :: t :: _ => some (f.trim, t.trim)
  | _ => none

/-- Stage `from`/`to` extraction shared by the two stage normalizers: prefer a
`"A to B"` stage string, else the explicit `from`/`to` properties. -/
def stageFromTo (st : JVal) : Option String × Option String :=
  match asStr (st.getField "stage") with
  | some s =>
    match splitStageString s with
    | some (f, t) => (some f, some t)
    | none => (asStr (st.getField "from"), asStr (st.getField "to"))
  | none => (asStr (st.getField "from"), asStr (st.getField "to"))

/-- `from || "Unknown"` / `to || "Unknown"` on push (empty string is falsy). -/
def orUnknown (s : Option String) : String :=
  match s with
  | some v => if v = "" then "Unknown" else v
  | none => "Unknown"

/-- `st.distanceKm` if a number, else `st.distance` if a number, else absent. -/
def stageDistance (st : JVal) : Option ℚ :=
  match asNum (st.getField "distanceKm") with
  | some q => some q
  | none => asNum (st.getField "distance")

/--
The per-stage body of `extractItineraryFromPlan` (src/lib/executor.ts):
`i` counts stages from 0, `total` is `a.stages.length`, `prevTo` is the
`previousTo` variable (the pre-"Unknown" value of the previous stage's `to`).
-/
def extractStages (a : JVal) (total : Nat) :
    Nat → Option String → List JVal → List Leg
  | _, _, [] => []
  | i, prevTo, st :: rest =>
    let ft := stageFromTo st
    let from0 : Option String :=
      if jsStrFalsy ft.1 then
        if i = 0 then asStr (a.getField "start") else prevTo
      else ft.1
    let to0 : Option String :=
      if jsStrFalsy ft.2 then
        if i = total - 1 then asStr (a.getField "end") else ft.2
      else ft.2
    { day := (i : ℤ) + 1, lfrom := some (orUnknown from0), lto := some (orUnknown to0),
      distanceKm := stageDistance st } ::
      extractStages a total (i + 1) to0 rest

/-- `extractItineraryFromPlan` of src/lib/executor.ts: derive an itinerary from
the first `map.drawRoute` step's args, or from `start`/`end` alone. -/
def extractItineraryFromPlan (plan : Plan) : Option (List Leg) :=
  match plan.steps.find? (fun s => s.tool = ToolName.mapDrawRoute) with
  | none => none
  | some step =>
    if jsFalsy step.args then none
    else
      match step.args.getField "stages" with
      | some (.jarr stages) =>
        if stages.isEmpty then
          if jsTruthyOpt (step.args.getField "start") ∨
             jsTruthyOpt (step.args.getField "end") then
            some [{ day := 1, lfrom := asStr (step.args.getField "start"),
                    lto := asStr (step.args.getField "end") }]
          else none
        else some (extractStages step.args stages.length 0 none stages)
      | _ =>
        if jsTruthyOpt (step.args.getField "start") ∨
           jsTruthyOpt (step.args.getField "end") then
          some [{ day := 1, lfrom := asStr (step.args.getField "start"),
                  lto := asStr (step.args.getField "end") }]
        else none

/-- Options of `executePlan` (`ExecuteOptions` of src/lib/executor.ts); the
tool dispatcher plus timeout is the oracle `exec` (step index, attempt). -/
structure ExecuteOptions where
  plan : Plan
  exec : Nat → Nat → Outcome
  startIndex : Nat := 0
  alreadyExecuted : List String := []
  hardMaxSteps : Option Nat := none
  maxRetries : Nat := 1
  honorPause : Bool := true
  prependClear : Bool := true

/-- `hardMax = Math.min(hardMaxSteps ?? steps.length, steps.length)`: the hard
step budget, computed from the caller option and the plan length only. -/
def execHardMax (o : ExecuteOptions) : Nat :=
  min (o.hardMaxSteps.getD o.plan.steps.length) o.plan.steps.length

/-- `pauseIdx = honorPause ? findPauseIndex(plan, startIndex) : -1`. -/
def execPauseIdx (o : ExecuteOptions) : Option Nat :=
  if o.honorPause then findPauseIndex o.plan o.startIndex else none

/-- `stopAt = Math.min(pauseIdx >= 0 ? pauseIdx : steps.length,
startIndex + hardMax)`: the exclusive stop boundary of the loop. -/
def execStopAt (o : ExecuteOptions) : Nat :=
  min ((execPauseIdx o).getD o.plan.steps.length) (o.startIndex + execHardMax o)

/-- `executePlan` of src/lib/executor.ts. -/
def executePlan (o : ExecuteOptions) : ExecResult :=
  match runSteps o.exec o.alreadyExecuted o.maxRetries o.startIndex
      ((o.plan.steps.take (execStopAt o)).drop o.startIndex)
      (if o.prependClear ∧ o.startIndex = 0 then [.clearRoute] else []) [] none with
  | .errored actions nextIndex logs itin =>
    { actions := actions, nextIndex := nextIndex, paused := false, logs := logs,
      itinerary := itin }
  | .completed actions i logs itin =>
    { actions := actions, nextIndex := i,
      paused := o.honorPause ∧ execPauseIdx o = some i, logs := logs,
      itinerary := overwriteItin (extractItineraryFromPlan o.plan) itin }

/-- Whether an attempt outcome is a thrown error or timeout. -/
def Outcome.isErr : Outcome → Bool
  | .err _ => true
  | .ok _ _ => false

/-- Concatenated UI actions of a run of consecutively succeeding steps
starting at index `i` (one list entry per step of the slice, in step order). -/
def okRunActions (exec : Nat → Nat → Outcome) (maxRetries : Nat) :
    Nat → List Step → List AgentAction
  | _, [] => []
  | i, _ :: rest => okActions exec maxRetries i ++ okRunActions exec maxRetries (i + 1) rest

/-- Logs of a run of consecutively succeeding steps starting at index `i`. -/
def okRunLogs (exec : Nat → Nat → Outcome) (maxRetries : Nat) :
    Nat → List Step → List StepLog
  | _, [] => []
  | i, s :: rest =>
    { idx := i, id := s.id, tool := s.tool, status := .ok } ::
      okRunLogs exec maxRetries (i + 1) rest

/-- Working itinerary after a run of consecutively succeeding steps starting
at index `i`: each step surfacing an itinerary overwrites wholesale, so this is
the last surfaced value (or the initial one when none is surfaced). -/
def okRunItin (exec : Nat → Nat → Outcome) (maxRetries : Nat) :
    Nat → List Step → Option (List Leg) → Option (List Leg)
  | _, [], itin => itin
  | i, _ :: rest, itin =>
    okRunItin exec maxRetries (i + 1) rest (overwriteItin itin (okItin exec maxRetries i))

/-- One reference waypoint (`StageTown` of src/lib/stages/frances.ts). -/
structure StageTown where
  name : String
  lat : ℚ
  lon : ℚ
  kmFromSantiago : Option ℚ := none
deriving DecidableEq, Repr

/-- `FRANCES_LAST100` of src/lib/stages/frances.ts: the static ordered waypoint
table for the last ~115km Sarria → Santiago. -/
def FRANCES_LAST100 : List StageTown :=
  [ { name := "Sarria",               lat := 42.7812, lon := -7.4143, kmFromSantiago := some 115.0 },
    { name := "Barbadelo",            lat := 42.7945, lon := -7.4387, kmFromSantiago := some 110.4 },
    { name := "Rente",                lat := 42.8123, lon := -7.4721, kmFromSantiago := some 106.8 },
    { name := "Mercadoiro",           lat := 42.8156, lon := -7.5234, kmFromSantiago := some 101.9 },
    { name := "Portomarín",           lat := 42.8075, lon := -7.6153, kmFromSantiago := some 92.8 },
    { name := "Gonzar",               lat := 42.8254, lon := -7.6891, kmFromSantiago := some 83.2 },
    { name := "Castromaior",          lat := 42.8421, lon := -7.7234, kmFromSantiago := some 77.6 },
    { name := "Hospital da Cruz",     lat := 42.8587, lon := -7.7812, kmFromSantiago := some 72.1 },
    { name := "Palas de Rei",         lat := 42.8741, lon := -7.8687, kmFromSantiago := some 67.7 },
    { name := "Casanova",             lat := 42.8923, lon := -7.9234, kmFromSantiago := some 61.2 },
    { name := "Porto de Bois",        lat := 42.9034, lon := -7.9645, kmFromSantiago := some 56.9 },
    { name := "Melide",               lat := 42.9142, lon := -8.0129, kmFromSantiago := some 52.3 },
    { name := "Boente",               lat := 42.9178, lon := -8.0567, kmFromSantiago := some 46.1 },
    { name := "Castañeda",            lat := 42.9234, lon := -8.0891, kmFromSantiago := some 41.8 },
    { name := "Ribadiso da Baixo",    lat := 42.9267, lon := -8.1234, kmFromSantiago := some 37.2 },
    { name := "Arzúa",                lat := 42.9290, lon := -8.1585, kmFromSantiago := some 33.5 },
    { name := "Pedrouzo",             lat := 42.8971, lon := -8.2156, kmFromSantiago := some 24.9 },
    { name := "A Rúa",                lat := 42.9034, lon := -8.2567, kmFromSantiago := some 19.6 },
    { name := "O Pedrouzo",           lat := 42.8971, lon := -8.3773, kmFromSantiago := some 14.2 },
    { name := "Amenal",               lat := 42.8834, lon := -8.4123, kmFromSantiago := some 9.3 },
    { name := "San Paio",             lat := 42.8789, lon := -8.4567, kmFromSantiago := some 5.6 },
    { name := "Santiago de Compostela", lat := 42.8806, lon := -8.5449, kmFromSantiago := some 0 } ]

/-- `toLowerCase()`: character-wise lowering (ASCII-complete; the table's own
accented characters are already lower case, so lookups of the stored names
agree with JS). -/
def strLower (s : String) : String := String.mk (s.data.map Char.toLower)

/-- `trim()`: strip leading and trailing whitespace. -/
def strTrim (s : String) : String :=
  String.mk (((s.data.dropWhile Char.isWhitespace).reverse.dropWhile
    Char.isWhitespace).reverse)

/-- Case-normalized table index of a name:
`FRANCES_LAST100.findIndex(t => t.name.toLowerCase() === n.trim().toLowerCase())`. -/
def townIdx (n : String) : Option Nat :=
  FRANCES_LAST100.findIdx? (fun t => strLower t.name = strLower (strTrim n))

/-- `townsBetween` of src/lib/stages/frances.ts: the inclusive slice between
two named towns, reversed when the start lies after the end, `[]` when either
name is unknown. -/
def townsBetween (startName endName : String) : List StageTown :=
  match townIdx startName, townIdx endName with
  | some i, some j =>
    if i ≤ j then ((FRANCES_LAST100.drop i).take (j + 1 - i))
    else ((FRANCES_LAST100.drop j).take (i + 1 - j)).reverse
  | _, _ => []

/-- `distanceBetweenTowns` of src/lib/stages/frances.ts: absolute difference of
the two towns' `kmFromSantiago` values, `null` when either is unknown.  (This
lookup lowercases but does not trim, unlike `townsBetween`.) -/
def distanceBetweenTowns (fromTown toTown : String) : Option ℚ :=
  match FRANCES_LAST100.find? (fun t => strLower t.name = strLower fromTown),
        FRANCES_LAST100.find? (fun t => strLower t.name = strLower toTown) with
  | some f, some t =>
    match f.kmFromSantiago, t.kmFromSantiago with
    | some a, some b => some |a - b|
    | _, _ => none
  | _, _ => none

/--
The stage normalization of `map.drawRoute.coerceAsync`
(src/lib/toolRegistry.ts, the `stages.map` body).  `i` counts stages from 0 and
`total` is `stages.length`.  The original reads
`itinerary?.[stageIndex-1]?.to || "Previous"` where `itinerary` is the very
array under construction, hence still `undefined` while the callback runs, so
the lookup always evaluates to `undefined` and the fallback is the literal
string `"Previous"`.  After the names are fixed,
`distanceBetweenTowns(fromTown, toTown)` is preferred, but a `null` *or zero*
result (`if (!distanceKm)`) falls back to the stage's own `distanceKm` /
`distance` number.
-/
def coerceStages (startName endName : Option String) (total : Nat) :
    Nat → List JVal → List Leg
  | _, [] => []
  | i, st :: rest =>
    let ft := stageFromTo st
    let fromTown : String :=
      if jsStrFalsy ft.1 then
        if i = 0 then (if jsStrFalsy startName then "Start" else startName.getD "")
        else "Previous"
      else ft.1.getD ""
    let toTown : String :=
      if jsStrFalsy ft.2 then
        if i = total - 1 then (if jsStrFalsy endName then "End" else endName.getD "")
        else "Unknown"
      else ft.2.getD ""
    let dist : Option ℚ :=
      match distanceBetweenTowns fromTown toTown with
      | some d => if d = 0 then stageDistance st else some d
      | none => stageDistance st
    { day := (i : ℤ) + 1, lfrom := some fromTown, lto := some toTown, km := dist } ::
      coerceStages startName endName total (i + 1) rest

/-- Entry point of the coercion's stage normalization: `coerceAsync` computes
`startName`/`endName` from `meta.startName ?? start` (resp. end) and maps the
stage list when it is a nonempty array. -/
def coerceStageItinerary (args : JVal) : Option (List Leg) :=
  let startName : Option String :=
    match asStr (args.getField "meta" |>.bind (fun m => m.getField "startName")) with
    | some s => some s
    | none => asStr (args.getField "start")
  let endName : Option String :=
    match asStr (args.getField "meta" |>.bind (fun m => m.getField "endName")) with
    | some s => some s
    | none => asStr (args.getField "end")
  match args.getField "stages" with
  | some (.jarr stages) =>
    if stages.isEmpty then none
    else some (coerceStages startName endName stages.length 0 stages)
  | _ => none

/-- `normalizePauses(plan, "first")` of src/lib/planner.ts, the step map with
its `seen` flag: the first truthy `pauseForUser` step is kept verbatim, every
other step is rewritten with `pauseForUser: false`. -/
def normalizePausesAux (seen : Bool) : List Step → List Step
  | [] => []
  | s :: rest =>
    if s.pauseForUser = some true ∧ seen = false then
      s :: normalizePausesAux true rest
    else
      { s with pauseForUser := some false } :: normalizePausesAux seen rest

/-- `normalizePauses` in its default `"first"` mode, as applied by `buildPlan`
(src/lib/planner.ts) to every plan it returns. -/
def normalizePauses (plan : Plan) : Plan :=
  { plan with steps := normalizePausesAux false plan.steps }

/--
The dedup key `${m.lat.toFixed(4)},${m.lon.toFixed(4)}` of one coordinate:
`toFixed(4)` prints a sign exactly when the value is negative, followed by the
digits of the nearest 4-decimal scaling of the absolute value (ties take the
larger scaled integer), so string equality of the printed coordinate is
equality of this (sign, scaled magnitude) pair.
-/
def fixed4Key (q : ℚ) : Bool × ℤ :=
  (decide (q < 0), ⌊|q| * 10000 + 1/2⌋)

/-- Dedup key of a marker: the rounded `(lat,lon)` pair. -/
def markerKey (m : Marker) : (Bool × ℤ) × (Bool × ℤ) :=
  (fixed4Key m.lat, fixed4Key m.lon)

/-- The seen-set fold of `coalesceMarkers`: keep a marker exactly when its key
has not been seen, first-seen order preserved. -/
def dedupMarkers : List Marker → List ((Bool × ℤ) × (Bool × ℤ)) → List Marker
  | [], _ => []
  | m :: rest, seen =>
    if markerKey m ∈ seen then dedupMarkers rest seen
    else m :: dedupMarkers rest (markerKey m :: seen)

/-- The `lists` gathered by `coalesceMarkers`: the `markers` array of every
`drawMarkers` action, in order. -/
def markerLists (actions : List AgentAction) : List (List Marker) :=
  actions.filterMap (fun a =>
    match a with
    | .drawMarkers ms _ => some ms
    | _ => none)

/-- `coalesceMarkers` of src/app/api/chat/route.ts: gather the marker lists of
every `drawMarkers` action, `null` when there are none, else the concatenation
deduplicated by rounded coordinates. -/
def coalesceMarkers (actions : List AgentAction) : Option (List Marker) :=
  if (markerLists actions).isEmpty then none
  else some (dedupMarkers (markerLists actions).flatten [])

/-- `Math.round(km * 10)` (half rounds toward positive infinity). -/
def round1 (q : ℚ) : ℤ := ⌊q * 10 + 1/2⌋

/-- `formatDistance` of src/lib/utils.ts: round to one decimal, print without
the trailing `.0` for whole numbers. -/
def formatDistance (km : Option ℚ) : Option String :=
  match km with
  | none => none
  | some q =>
    let n := round1 q
    if n % 10 = 0 then some (toString (n / 10))
    else some (toString (n / 10) ++ "." ++ toString (n % 10).natAbs)

/-- `formatDistanceWithUnit` of src/lib/utils.ts. -/
def formatDistanceWithUnit (km : Option ℚ) (fallback : String) : String :=
  match formatDistance km with
  | some s => s ++ " km"
  | none => fallback

/-- The per-day subtitle of `markersFromItinerary`:
`Day ${leg.day}${leg.km ? ` · ${formatDistanceWithUnit(leg.km, "")}` : ""}`
(a zero `km` is falsy and omits the distance part). -/
def daySubtitle (leg : Leg) : String :=
  "Day " ++ toString leg.day ++
    (match leg.km with
     | some q => if q = 0 then "" else " · " ++ formatDistanceWithUnit (some q) ""
     | none => "")

/-- The optional day-0 start marker of `markersFromItinerary`: present exactly
when the itinerary is nonempty and leg 1 carries `fromLat`/`fromLon`. -/
def dayZeroMarkers (it : List Leg) : List Marker :=
  match it with
  | [] => []
  | l0 :: _ =>
    if l0.fromLat.isSome ∧ l0.fromLon.isSome then
      [{ lat := l0.fromLat.getD 0, lon := l0.fromLon.getD 0, title := l0.lfrom,
         subtitle := some "Day 0 · Start" }]
    else []

/-- The per-day destination markers of `markersFromItinerary`, one per leg. -/
def destMarkers (it : List Leg) : List Marker :=
  it.map (fun leg =>
    { lat := leg.toLat.getD 0, lon := leg.toLon.getD 0, title := leg.lto,
      subtitle := some (daySubtitle leg) })

/-- `markersFromItinerary` of src/app/api/chat/route.ts: one destination marker
per leg, preceded by a day-0 start marker when leg 1 carries `fromLat`/`fromLon`;
always tagged `replace: true`.  (Lat/lon default to 0 where the JS would carry
`undefined`; every call site guarantees the coordinates are present.) -/
def markersFromItinerary (it : List Leg) : AgentAction :=
  .drawMarkers (dayZeroMarkers it ++ destMarkers it) (some true)

/-- `hasCoords` of src/app/api/chat/route.ts: nonempty and every leg has
numeric `toLat`/`toLon`. -/
def hasCoords (it : List Leg) : Bool :=
  !it.isEmpty && it.all (fun d => d.toLat.isSome && d.toLon.isSome)

/-- The `actionsOut` synthesis of the request handler (src/app/api/chat/route.ts,
step 4): when the final itinerary is coordinate-complete, drop every executor
`drawMarkers` action and append the single authoritative replace-markers
action; otherwise pass the executor's actions through unmodified. -/
def finalizeActions (it : List Leg) (resultActions : List AgentAction) :
    List AgentAction :=
  if hasCoords it then
    resultActions.filter (fun a => !a.isDrawMarkers) ++ [markersFromItinerary it]
  else resultActions

/-- Parse an optional string-valued zod field (absent is fine, a present
non-string fails). -/
def parseOptStr (v : Option JVal) : Option (Option String) :=
  match v with
  | none => some none
  | some (.jstr s) => some (some s)
  | some _ => none

/-- Parse an optional boolean-valued zod field. -/
def parseOptBool (v : Option JVal) : Option (Option Bool) :=
  match v with
  | none => some none
  | some (.jbool b) => some (some b)
  | some _ => none

/-- Parse an optional bounded-integer zod field
(`z.number().int().min(lo).max(hi).optional()`). -/
def parseOptBoundedInt (v : Option JVal) (lo hi : ℤ) : Option (Option ℤ) :=
  match v with
  | none => some none
  | some (.jnum q) =>
    if q.den = 1 ∧ lo ≤ q.num ∧ q.num ≤ hi then some (some q.num) else none
  | some _ => none

/-- Parse one `PlanStep` (src/lib/schemas.ts): nonempty string `id`, a
recognized `tool` name, an object `args` (kept whole, `z.record(z.unknown())`),
optional string `why`, optional boolean `pauseForUser`; unknown keys stripped. -/
def parseStepJson (v : JVal) : Option Step :=
  match v with
  | .jobj fs =>
    match jlookup fs "id" with
    | some (.jstr s) =>
      if s.length ≥ 1 then
        match jlookup fs "tool" with
        | some (.jstr t) =>
          match toolNameOfString t with
          | some tn =>
            match jlookup fs "args" with
            | some (.jobj afs) =>
              match parseOptStr (jlookup fs "why") with
              | some w =>
                match parseOptBool (jlookup fs "pauseForUser") with
                | some pb =>
                  some { id := s, tool := tn, args := .jobj afs, why := w,
                         pauseForUser := pb }
                | none => none
              | none => none
            | _ => none
          | none => none
        | _ => none
      else none
    | _ => none
  | _ => none

/-- Parse every step of the candidate array; any invalid element fails all. -/
def parseStepsJson : List JVal → Option (List Step)
  | [] => some []
  | v :: rest =>
    match parseStepJson v with
    | some s =>
      match parseStepsJson rest with
      | some ss => some (s :: ss)
      | none => none
    | none => none

/-- Parse the optional `specialist` enum field. -/
def parseOptSpecialist (v : Option JVal) : Option (Option Specialist) :=
  match v with
  | none => some none
  | some (.jstr s) =>
    match specialistOfString s with
    | some sp => some (some sp)
    | none => none
  | some _ => none

/-- Parse the optional `budget` object field. -/
def parseOptBudget (v : Option JVal) : Option (Option Budget) :=
  match v with
  | none => some none
  | some (.jobj fs) =>
    match parseOptBoundedInt (jlookup fs "maxSteps") 1 50 with
    | some ms =>
      match parseOptBoundedInt (jlookup fs "maxTokens") 100 200000 with
      | some mt => some (some { maxSteps := ms, maxTokens := mt })
      | none => none
    | none => none
  | some _ => none

/-- `validatePlan` of src/lib/executor.ts: `PlanSchema.safeParse` with success
as `some` and any structural violation (steps array empty or longer than 50,
unknown tool name, non-object `args`, malformed optional field) as `none`. -/
def validatePlan (v : JVal) : Option Plan :=
  match v with
  | .jobj fs =>
    match jlookup fs "steps" with
    | some (.jarr xs) =>
      if 1 ≤ xs.length ∧ xs.length ≤ 50 then
        match parseStepsJson xs with
        | some steps =>
          match parseOptSpecialist (jlookup fs "specialist") with
          | some sp =>
            match parseOptBudget (jlookup fs "budget") with
            | some b => some { steps := steps, specialist := sp, budget := b }
            | none => none
          | none => none
        | none => none
      else none
    | _ => none
  | _ => none

/-- Canonical JSON encoding of a step, optional fields present only when set. -/
def encodeStep (s : Step) : JVal :=
  .jobj ([("id", .jstr s.id), ("tool", .jstr s.tool.str), ("args", s.args)] ++
    (match s.why with
     | some w => [("why", JVal.jstr w)]
     | none => []) ++
    (match s.pauseForUser with
     | some b => [("pauseForUser", JVal.jbool b)]
     | none => []))

/-- Canonical JSON encoding of a budget. -/
def encodeBudget (b : Budget) : JVal :=
  .jobj ((match b.maxSteps with
     | some m => [("maxSteps", JVal.jnum (m : ℚ))]
     | none => []) ++
    (match b.maxTokens with
     | some m => [("maxTokens", JVal.jnum (m : ℚ))]
     | none => []))

/-- Canonical JSON encoding of a plan, the shape an already-valid candidate
takes on the wire. -/
def encodePlan (p : Plan) : JVal :=
  .jobj ([("steps", JVal.jarr (p.steps.map encodeStep))] ++
    (match p.specialist with
     | some sp => [("specialist", JVal.jstr sp.str)]
     | none => []) ++
    (match p.budget with
     | some b => [("budget", encodeBudget b)]
     | none => []))

/-- Structural validity of a typed plan: the bounds `PlanSchema` itself
imposes (1–50 steps, nonempty ids, object args, in-range budget numbers). -/
def ValidPlan (p : Plan) : Prop :=
  1 ≤ p.steps.length ∧ p.steps.length ≤ 50 ∧
  (∀ s ∈ p.steps, s.id ≠ "" ∧ ∃ afs, s.args = JVal.jobj afs) ∧
  (∀ b, p.budget = some b →
    (∀ m, b.maxSteps = some m → 1 ≤ m ∧ m ≤ 50) ∧
    (∀ m, b.maxTokens = some m → 100 ≤ m ∧ m ≤ 200000))

/-- Executor options for a fresh pass (`startIndex 0`, nothing already
executed), as the request handler invokes `executePlan`. -/
def freshOpts (plan : Plan) (exec : Nat → Nat → Outcome) (hardMaxSteps : Option Nat)
    (maxRetries : Nat) (honorPause prependClear : Bool) : ExecuteOptions where
  plan := plan
  exec := exec
  hardMaxSteps := hardMaxSteps
  maxRetries := maxRetries
  honorPause := honorPause
  prependClear := prependClear

/-- Concrete three-step plan pausing at index 1, for the C1 witness. -/
def c1Plan : Plan where
  steps :=
    [ { id := "a", tool := .mapFocus },
      { id := "b", tool := .ragSearch, pauseForUser := some true },
      { id := "c", tool := .exportGpx } ]

/-- Oracle that succeeds first try on every step, for the C1 witness. -/
def c1Exec : Nat → Nat → Outcome := fun i _ =>
  .ok [.drawRoute (.jstr (toString i))] none

/-- Concrete three-step plan with no pause flags, for the C2 witness. -/
def c2Plan : Plan where
  steps :=
    [ { id := "a", tool := .mapFocus },
      { id := "b", tool := .ragSearch },
      { id := "c", tool := .exportGpx } ]

/-- Oracle whose step 1 times out on every attempt, for the C2 witness. -/
def c2Exec : Nat → Nat → Outcome := fun i _ =>
  if i = 1 then .err "timeout" else .ok [.drawRoute (.jstr (toString i))] none

/-- Two-step plan that declares a budget of `maxSteps: 1`, for C3. -/
def c3Plan : Plan where
  steps :=
    [ { id := "a", tool := .mapFocus },
      { id := "b", tool := .ragSearch } ]
  budget := some { maxSteps := some 1 }

/-- Oracle that succeeds first try on every step, for C3. -/
def c3Exec : Nat → Nat → Outcome := fun _ _ => .ok [] none

/-- Two-step plan whose first step is a `map.drawRoute` with `start`/`end`
args, for the C10 witness. -/
def c10Plan : Plan where
  steps :=
    [ { id := "r", tool := .mapDrawRoute,
        args := .jobj [("start", .jstr "Sarria"), ("end", .jstr "Santiago")] },
      { id := "s", tool := .ragSearch } ]

/-- Oracle where step 0 surfaces an itinerary and step 1 always fails. -/
def c10ExecFail : Nat → Nat → Outcome := fun i _ =>
  if i = 1 then .err "boom"
  else .ok [] (some [{ day := 7, lfrom := some "Tool", lto := some "Itinerary" }])

/-- Oracle where every step succeeds and none surfaces an itinerary. -/
def c10ExecOk : Nat → Nat → Outcome := fun _ _ => .ok [] none

/-- A step with its pause flag cleared, as `normalizePauses` rewrites it. -/
def clearPause (s : Step) : Step := { s with pauseForUser := some false }

/-- Specification-side dedup (from the spec's words): walk the markers in
order, keeping a marker exactly when no earlier marker (the processed prefix
`pre`) shares its rounded key. -/
def firstOccs (pre : List Marker) : List Marker → List Marker
  | [] => []
  | m :: rest =>
    if ∀ p ∈ pre, markerKey p ≠ markerKey m then m :: firstOccs (pre ++ [m]) rest
    else firstOccs (pre ++ [m]) rest

/-- Marker at (42.88061, -8.54491), first of the C7 example. -/
def c7m1 : Marker := { lat := 42.88061, lon := -8.54491 }

/-- Marker at (42.88064, -8.54489), within ~11m of the first. -/
def c7m2 : Marker := { lat := 42.88064, lon := -8.54489 }

/-- Marker at (42.8900, -8.5500), a genuinely distinct point. -/
def c7m3 : Marker := { lat := 42.8900, lon := -8.5500 }

/-- Two-leg coordinate-complete itinerary with a day-1 start, for C6. -/
def c6It : List Leg :=
  [ { day := 1, lfrom := some "Sarria", lto := some "Portomarín",
      toLat := some 42, toLon := some (-7), fromLat := some 42, fromLon := some (-7) },
    { day := 2, lfrom := some "Portomarín", lto := some "Santiago",
      toLat := some 42, toLon := some (-8) } ]

/-- One-leg itinerary missing destination coordinates, for C6. -/
def c6ItBad : List Leg :=
  [ { day := 1, lfrom := some "Sarria", lto := some "Santiago" } ]

/-- A fully-populated valid plan for the C5 witness. -/
def c5Plan : Plan where
  steps :=
    [ { id := "s1", tool := .mapFocus, args := .jobj [("zoom", .jnum 12)],
        why := some "focus the start", pauseForUser := some false } ]
  specialist := some .navigator
  budget := some { maxSteps := some 3, maxTokens := some 1000 }

/-- The C4 failing input: `stages: [{from:"Sarria"}, {to:"Santiago"}]`. -/
def c4stages : List JVal :=
  [ .jobj [("from", .jstr "Sarria")], .jobj [("to", .jstr "Santiago")] ]

/-- The C4 failing input: drawRoute args with `start:"Sarria"`, `end:"Santiago"`
and the two-stage list above. -/
def c4args : JVal :=
  .jobj [("start", .jstr "Sarria"), ("end", .jstr "Santiago"),
         ("stages", .jarr c4stages)]

lemma findPauseAux_none (l : List Step) (i0 : Nat)
    (h : ∀ s ∈ l, s.pauseForUser ≠ some true) : findPauseAux i0 l = none := by
  induction l generalizing i0 with
  | nil => rfl
  | cons s rest ih =>
    unfold findPauseAux
    rw [if_neg (h s (List.mem_cons_self s rest))]
    exact ih (i0 + 1) (fun t ht => h t (List.mem_cons_of_mem s ht))

lemma findPauseAux_first (l : List Step) (i0 k : Nat) (hk : k < l.length)
    (htrue : (l.get ⟨k, hk⟩).pauseForUser = some true)
    (hbefore : ∀ j (hj : j < l.length), j < k → (l.get ⟨j, hj⟩).pauseForUser ≠ some true) :
    findPauseAux i0 l = some (i0 + k) := by
  induction l generalizing i0 k with
  | nil => exact absurd hk (Nat.not_lt_zero k)
  | cons s rest ih =>
    cases k with
    | zero =>
      unfold findPauseAux
      rw [if_pos (show s.pauseForUser = some true from htrue), Nat.add_zero]
    | succ k' =>
      have h0 : s.pauseForUser ≠ some true :=
        fun hh => hbefore 0 (Nat.succ_pos _) (Nat.succ_pos k') hh
      unfold findPauseAux
      rw [if_neg h0]
      have hk' : k' < rest.length := Nat.lt_of_succ_lt_succ hk
      have htrue' : (rest.get ⟨k', hk'⟩).pauseForUser = some true := htrue
      have hbefore' : ∀ j (hj : j < rest.length), j < k' →
          (rest.get ⟨j, hj⟩).pauseForUser ≠ some true :=
        fun j hj hjk hh =>
          hbefore (j + 1) (Nat.succ_lt_succ hj) (Nat.succ_lt_succ hjk) hh
      rw [ih (i0 + 1) k' hk' htrue' hbefore']
      congr 1
      omega

lemma findPauseAux_lower (l : List Step) (i0 p : Nat)
    (h : findPauseAux i0 l = some p) : i0 ≤ p := by
  induction l generalizing i0 with
  | nil => exact absurd h (by simp [findPauseAux])
  | cons s rest ih =>
    unfold findPauseAux at h
    by_cases hs : s.pauseForUser = some true
    · rw [if_pos hs] at h
      have := Option.some.inj h
      omega
    · rw [if_neg hs] at h
      exact Nat.le_of_succ_le (ih (i0 + 1) h)

lemma runSteps_ok (exec : Nat → Nat → Outcome) (skip : List String) (maxRetries : Nat)
    (l : List Step) (i0 : Nat) (acts : List AgentAction) (logs : List StepLog)
    (itin : Option (List Leg))
    (hskip : ∀ s ∈ l, s.id ∉ skip)
    (hok : ∀ j, j < l.length → (firstOkAttempt exec maxRetries (i0 + j)).isSome) :
    runSteps exec skip maxRetries i0 l acts logs itin =
      .completed (acts ++ okRunActions exec maxRetries i0 l) (i0 + l.length)
        (logs ++ okRunLogs exec maxRetries i0 l)
        (okRunItin exec maxRetries i0 l itin) := by
  induction l generalizing i0 acts logs itin with
  | nil =>
    simp [runSteps, okRunActions, okRunLogs, okRunItin]
  | cons s rest ih =>
    have h0 : (firstOkAttempt exec maxRetries i0).isSome := by
      have := hok 0 (Nat.succ_pos _)
      simpa using this
    obtain ⟨⟨u, itNew⟩, hsome⟩ := Option.isSome_iff_exists.mp h0
    unfold runSteps
    rw [if_neg (hskip s (List.mem_cons_self s rest)), hsome]
    dsimp only
    rw [ih (i0 + 1) (acts ++ u) _ _
      (fun t ht => hskip t (List.mem_cons_of_mem s ht))
      (fun j hj => by
        have := hok (j + 1) (Nat.succ_lt_succ hj)
        simpa [Nat.add_assoc, Nat.add_comm 1 j] using this)]
    simp [okRunActions, okRunLogs, okRunItin, okActions, okItin, hsome,
      Nat.add_assoc, Nat.add_comm 1 rest.length]

lemma runSteps_fail (exec : Nat → Nat → Outcome) (skip : List String) (maxRetries : Nat)
    (l : List Step) (i0 f : Nat) (hf : f < l.length)
    (acts : List AgentAction) (logs : List StepLog) (itin : Option (List Leg))
    (hskip : ∀ s ∈ l, s.id ∉ skip)
    (hok : ∀ j, j < f → (firstOkAttempt exec maxRetries (i0 + j)).isSome)
    (hfail : firstOkAttempt exec maxRetries (i0 + f) = none) :
    runSteps exec skip maxRetries i0 l acts logs itin =
      .errored (acts ++ okRunActions exec maxRetries i0 (l.take f)) (i0 + f)
        (logs ++ okRunLogs exec maxRetries i0 (l.take f) ++
          [{ idx := i0 + f, id := (l.get ⟨f, hf⟩).id, tool := (l.get ⟨f, hf⟩).tool,
             status := .error, errorCode := lastErrMsg exec maxRetries (i0 + f) }])
        (okRunItin exec maxRetries i0 (l.take f) itin) := by
  induction l generalizing i0 f acts logs itin with
  | nil => exact absurd hf (Nat.not_lt_zero f)
  | cons s rest ih =>
    cases f with
    | zero =>
      unfold runSteps
      rw [if_neg (hskip s (List.mem_cons_self s rest))]
      rw [show i0 + 0 = i0 from rfl] at hfail
      rw [hfail]
      simp [okRunActions, okRunLogs, okRunItin]
    | succ f' =>
      have h0 : (firstOkAttempt exec maxRetries i0).isSome := by
        have := hok 0 (Nat.succ_pos _)
        simpa using this
      obtain ⟨⟨u, itNew⟩, hsome⟩ := Option.isSome_iff_exists.mp h0
      unfold runSteps
      rw [if_neg (hskip s (List.mem_cons_self s rest)), hsome]
      dsimp only
      have hf' : f' < rest.length := Nat.lt_of_succ_lt_succ hf
      rw [ih (i0 + 1) f' hf' (acts ++ u) _ _
        (fun t ht => hskip t (List.mem_cons_of_mem s ht))
        (fun j hj => by
          have := hok (j + 1) (Nat.succ_lt_succ hj)
          simpa [Nat.add_assoc, Nat.add_comm 1 j] using this)
        (by
          have : i0 + 1 + f' = i0 + (f' + 1) := by omega
          rw [this]
          exact hfail)]
      simp [okRunActions, okRunLogs, okRunItin, okActions, okItin, hsome,
        Nat.add_assoc, Nat.add_comm 1 f']

/-- C1: for a plan whose only `pauseForUser:true` step sits at index `k`,
executed with `honorPause:true` from `startIndex 0` with no caller budget and
every step before `k` succeeding, `executePlan` stops before step `k`:
`nextIndex = k`, `paused = true`, and the returned actions are exactly the
optional clear prefix plus the actions of steps `0..k-1` — nothing produced by
step `k` or any later step. -/
theorem c1_pause_boundary (plan : Plan) (exec : Nat → Nat → Outcome)
    (maxRetries k : Nat) (b : Bool)
    (hk : k < plan.steps.length)
    (hone : ∀ i (hi : i < plan.steps.length),
      ((plan.steps.get ⟨i, hi⟩).pauseForUser = some true) ↔ i = k)
    (hsucc : ∀ j, j < k → (firstOkAttempt exec maxRetries j).isSome) :
    (executePlan (freshOpts plan exec none maxRetries true b)).nextIndex = k ∧
    (executePlan (freshOpts plan exec none maxRetries true b)).paused = true ∧
    (executePlan (freshOpts plan exec none maxRetries true b)).actions =
      (if b then [AgentAction.clearRoute] else []) ++
        okRunActions exec maxRetries 0 (plan.steps.take k) := by
  have hpause : findPauseIndex plan 0 = some k := by
    unfold findPauseIndex
    rw [List.drop_zero]
    have := findPauseAux_first plan.steps 0 k hk ((hone k hk).mpr rfl)
      (fun j hj hjk hh => Nat.ne_of_lt hjk ((hone j hj).mp hh))
    simpa using this
  have hstop : execStopAt (freshOpts plan exec none maxRetries true b) = k := by
    simp only [execStopAt, execPauseIdx, execHardMax, freshOpts]
    simp [hpause]
    omega
  have hlen : (plan.steps.take k).length = k := by
    rw [List.length_take]
    omega
  unfold executePlan
  rw [hstop]
  dsimp only [freshOpts]
  rw [List.drop_zero]
  rw [runSteps_ok exec [] maxRetries (plan.steps.take k) 0 _ [] none
    (fun s _ => List.not_mem_nil s.id)
    (fun j hj => by
      rw [hlen] at hj
      simpa using hsucc j hj)]
  dsimp only
  refine ⟨by simpa using hlen, ?_, by simp⟩
  simp only [execPauseIdx, freshOpts]
  simp [hpause, hlen]

theorem c1_pause_boundary_witness :
    (executePlan (freshOpts c1Plan c1Exec none 1 true true)).nextIndex = 1 ∧
    (executePlan (freshOpts c1Plan c1Exec none 1 true true)).paused = true ∧
    (executePlan (freshOpts c1Plan c1Exec none 1 true true)).actions =
      (if true then [AgentAction.clearRoute] else []) ++
        okRunActions c1Exec 1 0 (c1Plan.steps.take 1) :=
  c1_pause_boundary c1Plan c1Exec 1 1 true (by decide) (by decide) (by decide)

lemma findPauseAux_gt (l : List Step) (i0 f : Nat)
    (h : ∀ j (hj : j < l.length), j ≤ f → (l.get ⟨j, hj⟩).pauseForUser ≠ some true) :
    ∀ p, findPauseAux i0 l = some p → i0 + f < p := by
  induction l generalizing i0 f with
  | nil => intro p hp; exact absurd hp (by simp [findPauseAux])
  | cons s rest ih =>
    intro p hp
    have h0 : s.pauseForUser ≠ some true :=
      fun hh => h 0 (Nat.succ_pos _) (Nat.zero_le f) hh
    unfold findPauseAux at hp
    rw [if_neg h0] at hp
    cases f with
    | zero =>
      have := findPauseAux_lower rest (i0 + 1) p hp
      omega
    | succ f' =>
      have := ih (i0 + 1) f'
        (fun j hj hjf hh =>
          h (j + 1) (Nat.succ_lt_succ hj) (Nat.succ_le_succ hjf) hh) p hp
      omega

lemma firstOkAttempt_none (exec : Nat → Nat → Outcome) (maxRetries f : Nat)
    (hfail : ∀ a, a ≤ maxRetries → (exec f a).isErr = true) :
    firstOkAttempt exec maxRetries f = none := by
  unfold firstOkAttempt
  rw [List.findSome?_eq_none_iff]
  intro a ha
  have := hfail a (Nat.lt_succ_iff.mp (List.mem_range.mp ha))
  cases hx : exec f a with
  | ok u it => rw [hx] at this; exact absurd this (by simp [Outcome.isErr])
  | err m => simp

/-- C2: when step `f` fails every one of its `maxRetries + 1` attempts (thrown
errors and timeouts alike), with every step before it succeeding and no pause
flag at or before `f`, `executePlan` logs the ok entries of steps `0..f-1`
followed by one `error` entry for step `f` and returns immediately:
`paused = false`, `nextIndex = f`, and the actions are exactly the optional
clear prefix plus what the steps before `f` accumulated — nothing from step `f`
or any later step, which is never executed. -/
theorem c2_error_halts (plan : Plan) (exec : Nat → Nat → Outcome)
    (maxRetries f : Nat) (hp b : Bool)
    (hf : f < plan.steps.length)
    (hnopause : ∀ i (hi : i < plan.steps.length), i ≤ f →
      (plan.steps.get ⟨i, hi⟩).pauseForUser ≠ some true)
    (hsucc : ∀ j, j < f → (firstOkAttempt exec maxRetries j).isSome)
    (hfail : ∀ a, a ≤ maxRetries → (exec f a).isErr = true) :
    (executePlan (freshOpts plan exec none maxRetries hp b)).nextIndex = f ∧
    (executePlan (freshOpts plan exec none maxRetries hp b)).paused = false ∧
    (executePlan (freshOpts plan exec none maxRetries hp b)).actions =
      (if b then [AgentAction.clearRoute] else []) ++
        okRunActions exec maxRetries 0 (plan.steps.take f) ∧
    (executePlan (freshOpts plan exec none maxRetries hp b)).logs =
      okRunLogs exec maxRetries 0 (plan.steps.take f) ++
        [{ idx := f, id := (plan.steps.get ⟨f, hf⟩).id,
           tool := (plan.steps.get ⟨f, hf⟩).tool,
           status := .error, errorCode := lastErrMsg exec maxRetries f }] := by
  set o := freshOpts plan exec none maxRetries hp b with ho
  have hproj_plan : o.plan = plan := rfl
  have hproj_exec : o.exec = exec := rfl
  have hproj_already : o.alreadyExecuted = [] := rfl
  have hproj_mr : o.maxRetries = maxRetries := rfl
  have hproj_start : o.startIndex = 0 := rfl
  have hproj_pc : o.prependClear = b := rfl
  have hhm : execHardMax o = plan.steps.length := by
    simp [execHardMax, o, freshOpts]
  have hpi_gt : ∀ p, execPauseIdx o = some p → f < p := by
    intro p hpp
    simp only [execPauseIdx, o, freshOpts] at hpp
    rcases hb : hp with _ | _
    · rw [hb] at hpp
      simp at hpp
    · rw [hb] at hpp
      simp only [if_pos] at hpp
      unfold findPauseIndex at hpp
      rw [List.drop_zero] at hpp
      have := findPauseAux_gt plan.steps 0 f
        (fun j hj hjf hh => hnopause j hj hjf hh) p hpp
      omega
  have hstop_eq : execStopAt o =
      min ((execPauseIdx o).getD plan.steps.length) plan.steps.length := by
    rw [execStopAt, hhm, hproj_start, hproj_plan]
    simp
  have hstop_le : execStopAt o ≤ plan.steps.length := by
    rw [hstop_eq]
    exact Nat.min_le_right _ _
  have hstop_gt : f < execStopAt o := by
    rw [hstop_eq]
    rcases hpx : execPauseIdx o with _ | p
    · simp only [Option.getD_none, Nat.min_self]
      exact hf
    · have hfp := hpi_gt p hpx
      simp only [Option.getD_some]
      rw [Nat.lt_min]
      exact ⟨hfp, hf⟩
  have hslice_len : (plan.steps.take (execStopAt o)).length = execStopAt o := by
    rw [List.length_take]
    omega
  have hf_slice : f < (plan.steps.take (execStopAt o)).length := by
    omega
  have hget : (plan.steps.take (execStopAt o)).get ⟨f, hf_slice⟩ =
      plan.steps.get ⟨f, hf⟩ := by
    simp [List.get_eq_getElem, List.getElem_take]
  have htake : (plan.steps.take (execStopAt o)).take f = plan.steps.take f := by
    rw [List.take_take]
    congr 1
    omega
  unfold executePlan
  simp only [hproj_plan, hproj_exec, hproj_already, hproj_mr, hproj_start, hproj_pc]
  rw [List.drop_zero]
  rw [runSteps_fail exec [] maxRetries (plan.steps.take (execStopAt o)) 0 f hf_slice
    _ [] none
    (fun s _ => List.not_mem_nil s.id)
    (fun j hj => by simpa using hsucc j hj)
    (by simpa using firstOkAttempt_none exec maxRetries f hfail)]
  dsimp only
  rw [htake, hget]
  simp

theorem c2_error_halts_witness :
    (executePlan (freshOpts c2Plan c2Exec none 1 true true)).nextIndex = 1 ∧
    (executePlan (freshOpts c2Plan c2Exec none 1 true true)).paused = false ∧
    (executePlan (freshOpts c2Plan c2Exec none 1 true true)).actions =
      [AgentAction.clearRoute, AgentAction.drawRoute (.jstr "0")] ∧
    (executePlan (freshOpts c2Plan c2Exec none 1 true true)).logs =
      [ { idx := 0, id := "a", tool := .mapFocus, status := .ok },
        { idx := 1, id := "b", tool := .ragSearch, status := .error,
          errorCode := some "timeout" } ] := by
  have h := c2_error_halts c2Plan c2Exec 1 1 true true (by decide) (by decide)
    (by decide) (by decide)
  refine ⟨h.1, h.2.1, ?_, ?_⟩
  · rw [h.2.2.1]
    rfl
  · rw [h.2.2.2]
    rfl

/-- C3 counterexample: the plan declares `budget.maxSteps = 1` and the caller
supplies no `hardMaxSteps`, so the claimed hard budget
`min(plan.budget.maxSteps, hardMaxSteps)` would stop the pass after one step —
but `executePlan` executes both steps (`nextIndex = 2`, two ok log entries):
the plan-declared budget is never consulted. -/
theorem c3_budget_counterexample :
    c3Plan.budget = some { maxSteps := some 1, maxTokens := none } ∧
    (executePlan (freshOpts c3Plan c3Exec none 1 true true)).nextIndex = 2 ∧
    (executePlan (freshOpts c3Plan c3Exec none 1 true true)).logs =
      [ { idx := 0, id := "a", tool := .mapFocus, status := .ok },
        { idx := 1, id := "b", tool := .ragSearch, status := .ok } ] :=
  ⟨rfl, rfl, rfl⟩

/-- C3 (amended): the executor's hard step budget is
`min(hardMaxSteps ?? steps.length, steps.length)` — computed from the caller
option and plan length only; the plan-declared `budget.maxSteps` is never
consulted (first conjunct: the result is identical for any two plan budgets).
For a plan with no pause step started at index 0, the pass runs every step up
to that budget when they all succeed (second conjunct) and stops at the first
permanently failing step below the budget otherwise (third conjunct). -/
theorem c3_hard_budget (plan : Plan) (exec : Nat → Nat → Outcome)
    (maxRetries : Nat) (h : Option Nat) (b : Bool) :
    (∀ b1 b2 : Option Budget,
      executePlan (freshOpts { plan with budget := b1 } exec h maxRetries true b) =
        executePlan (freshOpts { plan with budget := b2 } exec h maxRetries true b)) ∧
    ((∀ s ∈ plan.steps, s.pauseForUser ≠ some true) →
      (∀ j, j < min (h.getD plan.steps.length) plan.steps.length →
        (firstOkAttempt exec maxRetries j).isSome) →
      (executePlan (freshOpts plan exec h maxRetries true b)).nextIndex =
          min (h.getD plan.steps.length) plan.steps.length ∧
        (executePlan (freshOpts plan exec h maxRetries true b)).logs =
          okRunLogs exec maxRetries 0
            (plan.steps.take (min (h.getD plan.steps.length) plan.steps.length))) ∧
    ((∀ s ∈ plan.steps, s.pauseForUser ≠ some true) →
      ∀ f, f < min (h.getD plan.steps.length) plan.steps.length →
        (∀ j, j < f → (firstOkAttempt exec maxRetries j).isSome) →
        (∀ a, a ≤ maxRetries → (exec f a).isErr = true) →
        (executePlan (freshOpts plan exec h maxRetries true b)).nextIndex = f) := by
  refine ⟨fun b1 b2 => rfl, ?_, ?_⟩
  all_goals
    intro hnopause
  · intro hsucc
    set o := freshOpts plan exec h maxRetries true b with ho
    have hpi : execPauseIdx o = none := by
      simp only [execPauseIdx, o, freshOpts, if_pos]
      unfold findPauseIndex
      rw [List.drop_zero]
      exact findPauseAux_none plan.steps 0 hnopause
    have hstop : execStopAt o = min (h.getD plan.steps.length) plan.steps.length := by
      simp only [execStopAt, execHardMax, hpi, Option.getD_none,
        show o.plan = plan from rfl, show o.startIndex = 0 from rfl,
        show o.hardMaxSteps = h from rfl]
      omega
    have hlen : (plan.steps.take (execStopAt o)).length = execStopAt o := by
      rw [List.length_take]
      omega
    unfold executePlan
    simp only [show o.plan = plan from rfl, show o.exec = exec from rfl,
      show o.alreadyExecuted = ([] : List String) from rfl,
      show o.maxRetries = maxRetries from rfl, show o.startIndex = 0 from rfl]
    rw [List.drop_zero]
    rw [runSteps_ok exec [] maxRetries (plan.steps.take (execStopAt o)) 0 _ [] none
      (fun s _ => List.not_mem_nil s.id)
      (fun j hj => by
        rw [hlen, hstop] at hj
        simpa using hsucc j hj)]
    dsimp only
    rw [hlen, hstop]
    exact ⟨by omega, by simp⟩
  · intro f hfm hsucc hfail
    set o := freshOpts plan exec h maxRetries true b with ho
    have hf : f < plan.steps.length := by omega
    have hpi : execPauseIdx o = none := by
      simp only [execPauseIdx, o, freshOpts, if_pos]
      unfold findPauseIndex
      rw [List.drop_zero]
      exact findPauseAux_none plan.steps 0 hnopause
    have hstop : execStopAt o = min (h.getD plan.steps.length) plan.steps.length := by
      simp only [execStopAt, execHardMax, hpi, Option.getD_none,
        show o.plan = plan from rfl, show o.startIndex = 0 from rfl,
        show o.hardMaxSteps = h from rfl]
      omega
    have hf_slice : f < (plan.steps.take (execStopAt o)).length := by
      rw [List.length_take]
      omega
    unfold executePlan
    simp only [show o.plan = plan from rfl, show o.exec = exec from rfl,
      show o.alreadyExecuted = ([] : List String) from rfl,
      show o.maxRetries = maxRetries from rfl, show o.startIndex = 0 from rfl]
    rw [List.drop_zero]
    rw [runSteps_fail exec [] maxRetries (plan.steps.take (execStopAt o)) 0 f hf_slice
      _ [] none
      (fun s _ => List.not_mem_nil s.id)
      (fun j hj => by simpa using hsucc j hj)
      (by simpa using firstOkAttempt_none exec maxRetries f hfail)]
    dsimp only
    omega

theorem c3_hard_budget_witness :
    (executePlan (freshOpts { c2Plan with budget := some { maxSteps := some 1 } }
        c1Exec (some 2) 1 true true) =
      executePlan (freshOpts { c2Plan with budget := none } c1Exec (some 2) 1 true true)) ∧
    (executePlan (freshOpts c2Plan c1Exec (some 2) 1 true true)).nextIndex = 2 ∧
    (executePlan (freshOpts c2Plan c2Exec (some 2) 1 true true)).nextIndex = 1 := by
  have h1 := (c3_hard_budget c2Plan c1Exec 1 (some 2) true).1
    (some { maxSteps := some 1 }) none
  have h2 := (c3_hard_budget c2Plan c1Exec 1 (some 2) true).2.1 (by decide) (by decide)
  have h3 := (c3_hard_budget c2Plan c2Exec 1 (some 2) true).2.2 (by decide) 1
    (by decide) (by decide) (by decide)
  exact ⟨h1, h2.1, h3⟩

/-- C10: the plan-derived itinerary heuristic never runs on the
permanent-failure path: when step `f` fails every attempt (first conjunct),
the early-error return's `itinerary` is exactly the fold of the itineraries
surfaced by the steps that succeeded before `f` (last writer wins, `none` when
none surfaced) — `extractItineraryFromPlan` does not appear; only a pass that
reaches the stop boundary with every step succeeding (second conjunct) falls
back to `extractItineraryFromPlan` and only when no tool surfaced an
itinerary. -/
theorem c10_error_itinerary (plan : Plan) (exec : Nat → Nat → Outcome)
    (maxRetries : Nat) (hp b : Bool) :
    (∀ f (hf : f < plan.steps.length),
      (∀ i (hi : i < plan.steps.length), i ≤ f →
        (plan.steps.get ⟨i, hi⟩).pauseForUser ≠ some true) →
      (∀ j, j < f → (firstOkAttempt exec maxRetries j).isSome) →
      (∀ a, a ≤ maxRetries → (exec f a).isErr = true) →
      (executePlan (freshOpts plan exec none maxRetries hp b)).itinerary =
        okRunItin exec maxRetries 0 (plan.steps.take f) none) ∧
    ((∀ s ∈ plan.steps, s.pauseForUser ≠ some true) →
      (∀ j, j < plan.steps.length → (firstOkAttempt exec maxRetries j).isSome) →
      (executePlan (freshOpts plan exec none maxRetries true b)).itinerary =
        overwriteItin (extractItineraryFromPlan plan)
          (okRunItin exec maxRetries 0 plan.steps none)) := by
  constructor
  · intro f hf hnopause hsucc hfail
    set o := freshOpts plan exec none maxRetries hp b with ho
    have hhm : execHardMax o = plan.steps.length := by
      simp [execHardMax, o, freshOpts]
    have hpi_gt : ∀ p, execPauseIdx o = some p → f < p := by
      intro p hpp
      simp only [execPauseIdx, o, freshOpts] at hpp
      rcases hb : hp with _ | _
      · rw [hb] at hpp
        simp at hpp
      · rw [hb] at hpp
        simp only [if_pos] at hpp
        unfold findPauseIndex at hpp
        rw [List.drop_zero] at hpp
        have := findPauseAux_gt plan.steps 0 f
          (fun j hj hjf hh => hnopause j hj hjf hh) p hpp
        omega
    have hstop_le : execStopAt o ≤ plan.steps.length := by
      simp only [execStopAt, execHardMax, show o.plan = plan from rfl,
        show o.startIndex = 0 from rfl, show o.hardMaxSteps = (none : Option Nat) from rfl]
      simp
    have hstop_gt : f < execStopAt o := by
      rw [execStopAt, hhm, show o.startIndex = 0 from rfl,
        show o.plan = plan from rfl]
      rcases hpx : execPauseIdx o with _ | p
      · simp only [Option.getD_none]
        omega
      · have hfp := hpi_gt p hpx
        simp only [Option.getD_some]
        omega
    have hf_slice : f < (plan.steps.take (execStopAt o)).length := by
      rw [List.length_take]
      omega
    have htake : (plan.steps.take (execStopAt o)).take f = plan.steps.take f := by
      rw [List.take_take]
      congr 1
      omega
    unfold executePlan
    simp only [show o.plan = plan from rfl, show o.exec = exec from rfl,
      show o.alreadyExecuted = ([] : List String) from rfl,
      show o.maxRetries = maxRetries from rfl, show o.startIndex = 0 from rfl]
    rw [List.drop_zero]
    rw [runSteps_fail exec [] maxRetries (plan.steps.take (execStopAt o)) 0 f hf_slice
      _ [] none
      (fun s _ => List.not_mem_nil s.id)
      (fun j hj => by simpa using hsucc j hj)
      (by simpa using firstOkAttempt_none exec maxRetries f hfail)]
    dsimp only
    rw [htake]
  · intro hnopause hsucc
    set o := freshOpts plan exec none maxRetries true b with ho
    have hpi : execPauseIdx o = none := by
      simp only [execPauseIdx, o, freshOpts, if_pos]
      unfold findPauseIndex
      rw [List.drop_zero]
      exact findPauseAux_none plan.steps 0 hnopause
    have hstop : execStopAt o = plan.steps.length := by
      simp only [execStopAt, execHardMax, hpi, Option.getD_none,
        show o.plan = plan from rfl, show o.startIndex = 0 from rfl,
        show o.hardMaxSteps = (none : Option Nat) from rfl]
      omega
    unfold executePlan
    simp only [show o.plan = plan from rfl, show o.exec = exec from rfl,
      show o.alreadyExecuted = ([] : List String) from rfl,
      show o.maxRetries = maxRetries from rfl, show o.startIndex = 0 from rfl]
    rw [List.drop_zero, hstop, List.take_length]
    rw [runSteps_ok exec [] maxRetries plan.steps 0 _ [] none
      (fun s _ => List.not_mem_nil s.id)
      (fun j hj => by simpa using hsucc j hj)]

theorem c10_error_itinerary_witness :
    (executePlan (freshOpts c10Plan c10ExecFail none 1 true true)).itinerary =
      some [{ day := 7, lfrom := some "Tool", lto := some "Itinerary" }] ∧
    (executePlan (freshOpts c10Plan c10ExecOk none 1 true true)).itinerary =
      some [{ day := 1, lfrom := some "Sarria", lto := some "Santiago" }] := by
  have h1 := (c10_error_itinerary c10Plan c10ExecFail 1 true true).1 1 (by decide)
    (by decide) (by decide) (by decide)
  have h2 := (c10_error_itinerary c10Plan c10ExecOk 1 true true).2 (by decide)
    (by decide)
  constructor
  · rw [h1]
    rfl
  · rw [h2]
    rfl

lemma normAux_true (l : List Step) :
    normalizePausesAux true l = l.map clearPause := by
  induction l with
  | nil => rfl
  | cons s rest ih =>
    unfold normalizePausesAux
    rw [if_neg (by simp)]
    rw [ih]
    rfl

lemma normAux_length (seen : Bool) (l : List Step) :
    (normalizePausesAux seen l).length = l.length := by
  induction l generalizing seen with
  | nil => rfl
  | cons s rest ih =>
    unfold normalizePausesAux
    by_cases hc : s.pauseForUser = some true ∧ seen = false
    · rw [if_pos hc]
      simp [ih]
    · rw [if_neg hc]
      simp [ih]

lemma findPauseAux_shift (l : List Step) (i0 : Nat) :
    findPauseAux i0 l = (findPauseAux 0 l).map (fun j => i0 + j) := by
  induction l generalizing i0 with
  | nil => rfl
  | cons s rest ih =>
    unfold findPauseAux
    by_cases hs : s.pauseForUser = some true
    · rw [if_pos hs, if_pos hs]
      simp
    · rw [if_neg hs, if_neg hs]
      rw [ih (i0 + 1), ih 1]
      cases findPauseAux 0 rest with
      | none => rfl
      | some j =>
        simp
        omega

lemma normAux_get (l : List Step) :
    ∀ i (hi : i < l.length) (hi2 : i < (normalizePausesAux false l).length),
      (normalizePausesAux false l).get ⟨i, hi2⟩ =
        (if findPauseAux 0 l = some i then l.get ⟨i, hi⟩
         else clearPause (l.get ⟨i, hi⟩)) := by
  induction l with
  | nil => intro i hi _; exact absurd hi (Nat.not_lt_zero i)
  | cons s rest ih =>
    intro i hi hi2
    simp only [List.get_eq_getElem]
    by_cases hs : s.pauseForUser = some true
    · have hout : normalizePausesAux false (s :: rest) = s :: rest.map clearPause := by
        rw [normalizePausesAux, if_pos ⟨hs, rfl⟩, normAux_true]
      have hfp : findPauseAux 0 (s :: rest) = some 0 := by
        rw [findPauseAux, if_pos hs]
      cases i with
      | zero => simp [hout, hfp]
      | succ i' =>
        rw [if_neg (by rw [hfp]; simp)]
        simp [hout]
    · have hout : normalizePausesAux false (s :: rest) =
          clearPause s :: normalizePausesAux false rest := by
        rw [normalizePausesAux, if_neg (by simp [hs])]
        rfl
      have hfp : findPauseAux 0 (s :: rest) =
          (findPauseAux 0 rest).map (fun j => 1 + j) := by
        rw [findPauseAux, if_neg hs]
        simpa using findPauseAux_shift rest 1
      cases i with
      | zero =>
        rw [if_neg (by rw [hfp]; cases findPauseAux 0 rest <;> simp)]
        simp [hout]
      | succ i' =>
        have hi' : i' < rest.length := Nat.lt_of_succ_lt_succ hi
        have hi2' : i' < (normalizePausesAux false rest).length := by
          rw [normAux_length]
          exact hi'
        have hcond : (findPauseAux 0 (s :: rest) = some (i' + 1)) ↔
            (findPauseAux 0 rest = some i') := by
          rw [hfp]
          cases findPauseAux 0 rest with
          | none => simp
          | some j =>
            simp
            omega
        have ihx := ih i' hi' hi2'
        simp only [List.get_eq_getElem] at ihx
        by_cases hc : findPauseAux 0 rest = some i'
        · rw [if_pos (hcond.mpr hc)]
          rw [if_pos hc] at ihx
          simp [hout, ihx]
        · rw [if_neg (fun hh => hc (hcond.mp hh))]
          rw [if_neg hc] at ihx
          simp [hout, ihx]

lemma countP_map_clearPause (l : List Step) :
    (l.map clearPause).countP (fun s => s.pauseForUser == some true) = 0 := by
  induction l with
  | nil => rfl
  | cons s rest ih =>
    rw [List.map_cons, List.countP_cons]
    simp only [clearPause]
    simpa using ih

lemma normAux_countP (l : List Step) :
    (normalizePausesAux false l).countP (fun s => s.pauseForUser == some true) ≤ 1 := by
  induction l with
  | nil => exact Nat.zero_le 1
  | cons s rest ih =>
    by_cases hs : s.pauseForUser = some true
    · have hout : normalizePausesAux false (s :: rest) = s :: rest.map clearPause := by
        rw [normalizePausesAux, if_pos ⟨hs, rfl⟩, normAux_true]
      rw [hout, List.countP_cons, countP_map_clearPause]
      simp [hs]
    · have hout : normalizePausesAux false (s :: rest) =
          clearPause s :: normalizePausesAux false rest := by
        rw [normalizePausesAux, if_neg (by simp [hs])]
        rfl
      rw [hout, List.countP_cons]
      simp only [clearPause]
      simpa using ih

/-- C8: `buildPlan` returns `normalizePauses(plan, "first")`, and that
normalization leaves the specialist, budget, step count and step order intact,
rewrites every step to its original fields with `pauseForUser := false`, except
that the first step whose pre-normalization `pauseForUser` was `true` (the
index `findPauseAux 0` finds) is kept verbatim — hence at most one step of the
result has `pauseForUser` true, and it is exactly that first one. -/
theorem c8_normalize_pauses (plan : Plan) :
    (normalizePauses plan).specialist = plan.specialist ∧
    (normalizePauses plan).budget = plan.budget ∧
    (normalizePauses plan).steps.length = plan.steps.length ∧
    (∀ i (hi : i < plan.steps.length) (hi2 : i < (normalizePauses plan).steps.length),
      (normalizePauses plan).steps.get ⟨i, hi2⟩ =
        (if findPauseAux 0 plan.steps = some i then plan.steps.get ⟨i, hi⟩
         else clearPause (plan.steps.get ⟨i, hi⟩))) ∧
    (normalizePauses plan).steps.countP (fun s => s.pauseForUser == some true) ≤ 1 := by
  refine ⟨rfl, rfl, normAux_length false plan.steps, ?_, normAux_countP plan.steps⟩
  intro i hi hi2
  exact normAux_get plan.steps i hi hi2

theorem c8_normalize_pauses_witness :
    (normalizePauses c1Plan).specialist = c1Plan.specialist ∧
    (normalizePauses c1Plan).budget = c1Plan.budget ∧
    (normalizePauses c1Plan).steps.length = c1Plan.steps.length ∧
    (∀ i (hi : i < c1Plan.steps.length)
        (hi2 : i < (normalizePauses c1Plan).steps.length),
      (normalizePauses c1Plan).steps.get ⟨i, hi2⟩ =
        (if findPauseAux 0 c1Plan.steps = some i then c1Plan.steps.get ⟨i, hi⟩
         else clearPause (c1Plan.steps.get ⟨i, hi⟩))) ∧
    (normalizePauses c1Plan).steps.countP (fun s => s.pauseForUser == some true) ≤ 1 :=
  c8_normalize_pauses c1Plan

lemma take_one_reverse (l : List StageTown) : (l.take 1).reverse = l.take 1 := by
  cases l with
  | nil => rfl
  | cons a rest => rfl

/-- C9: `townsBetween` is its own reverse under argument swap — for every pair
of names the two calls return the same waypoint slice in opposite orders — and
returns `[]` whenever either name is missing from the reference table; in
particular the Sarria → Santiago de Compostela call returns the whole table
and its reverse-argument call the reversed table. -/
theorem c9_towns_between_reverse :
    (∀ a b : String, townsBetween a b = (townsBetween b a).reverse) ∧
    (∀ a b : String, townIdx a = none ∨ townIdx b = none → townsBetween a b = []) ∧
    townsBetween "Sarria" "Santiago de Compostela" = FRANCES_LAST100 ∧
    townsBetween "Santiago de Compostela" "Sarria" = FRANCES_LAST100.reverse := by
  refine ⟨?_, ?_, by rfl, by rfl⟩
  · intro a b
    unfold townsBetween
    rcases ha : townIdx a with _ | i
    · cases townIdx b <;> rfl
    · rcases hb : townIdx b with _ | j
      · rfl
      · dsimp only
        by_cases hij : i ≤ j
        · by_cases hji : j ≤ i
          · have hij' : i = j := Nat.le_antisymm hij hji
            subst hij'
            rw [show i + 1 - i = 1 by omega]
            simp [take_one_reverse]
          · rw [if_pos hij, if_neg hji]
            rw [List.reverse_reverse]
        · have hji : j ≤ i := Nat.le_of_not_le hij
          rw [if_neg hij, if_pos hji]
  · intro a b hor
    unfold townsBetween
    rcases hor with h | h
    · rw [h]
    · rw [h]
      cases townIdx a <;> rfl

theorem c9_towns_between_reverse_witness :
    (townsBetween "Sarria" "Portomarín" = (townsBetween "Portomarín" "Sarria").reverse) ∧
    townsBetween "Melide" "Nowhere" = [] := by
  refine ⟨c9_towns_between_reverse.1 "Sarria" "Portomarín", ?_⟩
  exact c9_towns_between_reverse.2.1 "Melide" "Nowhere" (Or.inr (by rfl))

lemma firstOccs_sublist : ∀ ms pre, List.Sublist (firstOccs pre ms) ms := by
  intro ms
  induction ms with
  | nil => intro pre; exact List.Sublist.refl []
  | cons m rest ih =>
    intro pre
    unfold firstOccs
    by_cases hc : ∀ p ∈ pre, markerKey p ≠ markerKey m
    · rw [if_pos hc]
      exact List.Sublist.cons₂ m (ih (pre ++ [m]))
    · rw [if_neg hc]
      exact List.Sublist.cons m (ih (pre ++ [m]))

lemma dedupMarkers_eq_firstOccs :
    ∀ ms (seen : List ((Bool × ℤ) × (Bool × ℤ))) (pre : List Marker),
      (∀ k, k ∈ seen ↔ ∃ p ∈ pre, markerKey p = k) →
      dedupMarkers ms seen = firstOccs pre ms := by
  intro ms
  induction ms with
  | nil => intro seen pre hinv; rfl
  | cons m rest ih =>
    intro seen pre hinv
    by_cases hm : markerKey m ∈ seen
    · have hnall : ¬ ∀ p ∈ pre, markerKey p ≠ markerKey m := by
        obtain ⟨p, hp, hk⟩ := (hinv (markerKey m)).mp hm
        exact fun hall => hall p hp hk
      rw [dedupMarkers, if_pos hm, firstOccs, if_neg hnall]
      apply ih seen (pre ++ [m])
      intro k
      constructor
      · intro hk
        obtain ⟨p, hp, hpk⟩ := (hinv k).mp hk
        exact ⟨p, List.mem_append_left _ hp, hpk⟩
      · rintro ⟨p, hp, hpk⟩
        rcases List.mem_append.mp hp with hin | hin
        · exact (hinv k).mpr ⟨p, hin, hpk⟩
        · have : p = m := List.mem_singleton.mp hin
          subst this
          rw [← hpk]
          exact hm
    · have hall : ∀ p ∈ pre, markerKey p ≠ markerKey m := by
        intro p hp hk
        exact hm ((hinv (markerKey m)).mpr ⟨p, hp, hk⟩)
      rw [dedupMarkers, if_neg hm, firstOccs, if_pos hall]
      congr 1
      apply ih (markerKey m :: seen) (pre ++ [m])
      intro k
      constructor
      · intro hk
        rcases List.mem_cons.mp hk with hk | hk
        · exact ⟨m, List.mem_append_right _ (List.mem_singleton_self m), hk.symm⟩
        · obtain ⟨p, hp, hpk⟩ := (hinv k).mp hk
          exact ⟨p, List.mem_append_left _ hp, hpk⟩
      · rintro ⟨p, hp, hpk⟩
        rcases List.mem_append.mp hp with hin | hin
        · exact List.mem_cons_of_mem _ ((hinv k).mpr ⟨p, hin, hpk⟩)
        · have : p = m := List.mem_singleton.mp hin
          subst this
          rw [← hpk]
          exact List.mem_cons_self _ _

lemma fixed4Key_pos (q : ℚ) (n : ℤ) (h0 : 0 ≤ q) (h : ⌊q * 10000 + 1/2⌋ = n) :
    fixed4Key q = (false, n) := by
  unfold fixed4Key
  rw [abs_of_nonneg h0, h, decide_eq_false (not_lt.mpr h0)]

lemma fixed4Key_neg (q : ℚ) (n : ℤ) (h0 : q < 0) (h : ⌊(-q) * 10000 + 1/2⌋ = n) :
    fixed4Key q = (true, n) := by
  unfold fixed4Key
  rw [abs_of_neg h0, h, decide_eq_true h0]

lemma c7key1 : markerKey c7m1 = ((false, 428806), (true, 85449)) := by
  unfold markerKey c7m1
  rw [fixed4Key_pos 42.88061 428806 (by norm_num)
      (by norm_num [Int.floor_eq_iff]),
    fixed4Key_neg (-8.54491) 85449 (by norm_num)
      (by norm_num [Int.floor_eq_iff])]

lemma c7key2 : markerKey c7m2 = ((false, 428806), (true, 85449)) := by
  unfold markerKey c7m2
  rw [fixed4Key_pos 42.88064 428806 (by norm_num)
      (by norm_num [Int.floor_eq_iff]),
    fixed4Key_neg (-8.54489) 85449 (by norm_num)
      (by norm_num [Int.floor_eq_iff])]

lemma c7key3 : markerKey c7m3 = ((false, 428900), (true, 85500)) := by
  unfold markerKey c7m3
  rw [fixed4Key_pos 42.8900 428900 (by norm_num)
      (by norm_num [Int.floor_eq_iff]),
    fixed4Key_neg (-8.5500) 85500 (by norm_num)
      (by norm_num [Int.floor_eq_iff])]

/-- C7: marker coalescing deduplicates by the 4-decimal rounding key of
`(lat, lon)`: the merged list is exactly the first-occurrence filter of the
concatenated marker lists (first marker per rounded key kept, first-seen order
preserved — `firstOccs` is a sublist of its input); in particular
(42.88061, -8.54491) and (42.88064, -8.54489) collapse to the first while
(42.8900, -8.5500) stays distinct. -/
theorem c7_marker_dedup :
    (∀ actions : List AgentAction,
      coalesceMarkers actions =
        (if (markerLists actions).isEmpty then none
         else some (firstOccs [] (markerLists actions).flatten))) ∧
    (∀ ms pre, List.Sublist (firstOccs pre ms) ms) ∧
    coalesceMarkers [AgentAction.drawMarkers [c7m1, c7m2, c7m3] none] =
      some [c7m1, c7m3] := by
  refine ⟨?_, firstOccs_sublist, ?_⟩
  · intro actions
    unfold coalesceMarkers
    by_cases he : (markerLists actions).isEmpty
    · rw [if_pos he, if_pos he]
    · rw [if_neg he, if_neg he]
      rw [dedupMarkers_eq_firstOccs _ [] [] (by simp)]
  · have hlists : markerLists [AgentAction.drawMarkers [c7m1, c7m2, c7m3] none] =
        [[c7m1, c7m2, c7m3]] := rfl
    unfold coalesceMarkers
    rw [hlists]
    simp only [List.isEmpty_cons, List.flatten]
    rw [if_neg (by simp)]
    rw [List.append_nil]
    rw [dedupMarkers, if_neg (by simp)]
    rw [dedupMarkers, if_pos (by rw [c7key2, c7key1]; simp)]
    rw [dedupMarkers, if_neg (by rw [c7key3, c7key1]; simp)]
    rw [dedupMarkers]

theorem c7_marker_dedup_witness :
    coalesceMarkers [AgentAction.drawMarkers [c7m3] none, AgentAction.clearRoute] =
      (if (markerLists [AgentAction.drawMarkers [c7m3] none,
            AgentAction.clearRoute]).isEmpty then none
       else some (firstOccs [] (markerLists [AgentAction.drawMarkers [c7m3] none,
            AgentAction.clearRoute]).flatten)) ∧
    List.Sublist (firstOccs [] [c7m1, c7m2]) [c7m1, c7m2] :=
  ⟨c7_marker_dedup.1 _, c7_marker_dedup.2.1 [c7m1, c7m2] []⟩

lemma getLast?_append_singleton {α : Type} (l : List α) (a : α) :
    (l ++ [a]).getLast? = some a := by
  induction l with
  | nil => rfl
  | cons x rest ih => simp [List.getLast?_cons, ih]

/-- C6 (amended): when the final itinerary is nonempty and every leg has
numeric `toLat`/`toLon` (`hasCoords`), the response's action list contains
exactly one `drawMarkers` action, it is the last element, it carries
`replace: true`, and its marker count is the leg count plus one exactly when
leg 1 carries `fromLat`/`fromLon` (day-0 start marker); every executor-produced
`drawMarkers` action is filtered out, never duplicated alongside it.  When the
itinerary is empty or some leg lacks coordinates, the executor's actions pass
through unmodified and nothing is synthesized. -/
theorem c6_marker_synthesis (it : List Leg) (acts : List AgentAction) :
    (hasCoords it = true →
      (finalizeActions it acts).countP AgentAction.isDrawMarkers = 1 ∧
      (finalizeActions it acts).getLast? = some (markersFromItinerary it) ∧
      markersFromItinerary it =
        AgentAction.drawMarkers (dayZeroMarkers it ++ destMarkers it) (some true) ∧
      (dayZeroMarkers it ++ destMarkers it).length =
        it.length + (dayZeroMarkers it).length ∧
      (dayZeroMarkers it).length ≤ 1 ∧
      ((dayZeroMarkers it).length = 1 ↔
        (∃ l0 rest, it = l0 :: rest ∧ l0.fromLat.isSome ∧ l0.fromLon.isSome))) ∧
    (hasCoords it = false → finalizeActions it acts = acts) := by
  constructor
  · intro hc
    have hfin : finalizeActions it acts =
        acts.filter (fun a => !a.isDrawMarkers) ++ [markersFromItinerary it] := by
      unfold finalizeActions
      rw [if_pos hc]
    refine ⟨?_, ?_, rfl, ?_, ?_, ?_⟩
    · rw [hfin, List.countP_append]
      have h0 : (acts.filter (fun a => !a.isDrawMarkers)).countP
          AgentAction.isDrawMarkers = 0 := by
        rw [List.countP_eq_zero]
        intro a ha
        have := (List.mem_filter.mp ha).2
        simpa using this
      rw [h0]
      rfl
    · rw [hfin]
      exact getLast?_append_singleton _ _
    · rw [List.length_append]
      unfold destMarkers
      rw [List.length_map]
      omega
    · cases it with
      | nil => simp [dayZeroMarkers]
      | cons l0 rest =>
        unfold dayZeroMarkers
        dsimp only
        by_cases h : l0.fromLat.isSome ∧ l0.fromLon.isSome
        · rw [if_pos h]
          simp
        · rw [if_neg h]
          simp
    · cases it with
      | nil =>
        simp [dayZeroMarkers]
      | cons l0 rest =>
        unfold dayZeroMarkers
        dsimp only
        by_cases h : l0.fromLat.isSome ∧ l0.fromLon.isSome
        · rw [if_pos h]
          simp only [List.length_singleton, true_iff]
          exact ⟨l0, rest, rfl, h.1, h.2⟩
        · rw [if_neg h]
          simp only [List.length_nil]
          constructor
          · intro hh
            exact absurd hh (by simp)
          · rintro ⟨l0', rest', heq, h1, h2⟩
            cases heq
            exact absurd ⟨by simpa using h1, by simpa using h2⟩ h
  · intro hc
    unfold finalizeActions
    rw [if_neg (by simp [hc])]

/-- C6 counterexample: the claim as stated fails on an empty final itinerary —
every leg (vacuously) has numeric coordinates, yet the handler passes the
actions through and synthesizes no `drawMarkers` action at all. -/
theorem c6_empty_counterexample :
    (∀ d ∈ ([] : List Leg), d.toLat.isSome ∧ d.toLon.isSome) ∧
    finalizeActions [] [AgentAction.clearRoute] = [AgentAction.clearRoute] ∧
    (finalizeActions [] [AgentAction.clearRoute]).countP
      AgentAction.isDrawMarkers = 0 :=
  ⟨by simp, rfl, rfl⟩

theorem c6_marker_synthesis_witness :
    ((finalizeActions c6It [AgentAction.clearRoute]).countP
        AgentAction.isDrawMarkers = 1 ∧
      (finalizeActions c6It [AgentAction.clearRoute]).getLast? =
        some (markersFromItinerary c6It) ∧
      markersFromItinerary c6It =
        AgentAction.drawMarkers (dayZeroMarkers c6It ++ destMarkers c6It) (some true) ∧
      (dayZeroMarkers c6It ++ destMarkers c6It).length =
        c6It.length + (dayZeroMarkers c6It).length ∧
      (dayZeroMarkers c6It).length ≤ 1 ∧
      ((dayZeroMarkers c6It).length = 1 ↔
        (∃ l0 rest, c6It = l0 :: rest ∧ l0.fromLat.isSome ∧ l0.fromLon.isSome))) ∧
    finalizeActions c6ItBad [AgentAction.clearRoute] = [AgentAction.clearRoute] :=
  ⟨(c6_marker_synthesis c6It [AgentAction.clearRoute]).1 (by rfl),
   (c6_marker_synthesis c6ItBad [AgentAction.clearRoute]).2 (by rfl)⟩

lemma one_le_length_of_ne_empty (s : String) (h : s ≠ "") : 1 ≤ s.length := by
  rcases s with ⟨data⟩
  cases data with
  | nil => exact absurd rfl h
  | cons c cs => simp [String.length]

lemma toolNameOfString_str (t : ToolName) : toolNameOfString t.str = some t := by
  cases t <;> rfl

lemma specialistOfString_str (sp : Specialist) :
    specialistOfString sp.str = some sp := by
  cases sp <;> rfl

lemma parseStepJson_encode (s : Step) (hid : s.id ≠ "")
    (hargs : ∃ afs, s.args = JVal.jobj afs) :
    parseStepJson (encodeStep s) = some s := by
  obtain ⟨afs, hafs⟩ := hargs
  have hlen : 1 ≤ s.id.length := one_le_length_of_ne_empty s.id hid
  rcases s with ⟨sid, stool, sargs, swhy, spf⟩
  simp only at hafs hlen
  subst hafs
  cases swhy <;> cases spf <;>
    simp [encodeStep, parseStepJson, jlookup, hlen, toolNameOfString_str,
      parseOptStr, parseOptBool]

lemma parseStepsJson_encode (l : List Step)
    (h : ∀ s ∈ l, s.id ≠ "" ∧ ∃ afs, s.args = JVal.jobj afs) :
    parseStepsJson (l.map encodeStep) = some l := by
  induction l with
  | nil => rfl
  | cons s rest ih =>
    have hs := h s (List.mem_cons_self s rest)
    rw [List.map_cons, parseStepsJson,
      parseStepJson_encode s hs.1 hs.2,
      ih (fun t ht => h t (List.mem_cons_of_mem s ht))]

lemma parseOptBudget_encode (b : Budget)
    (hms : ∀ m, b.maxSteps = some m → 1 ≤ m ∧ m ≤ 50)
    (hmt : ∀ m, b.maxTokens = some m → 100 ≤ m ∧ m ≤ 200000) :
    parseOptBudget (some (encodeBudget b)) = some (some b) := by
  rcases b with ⟨ms, mt⟩
  simp only at hms hmt
  cases hm : ms with
  | none =>
    cases hm2 : mt with
    | none => rfl
    | some m =>
      have := hmt m (by rw [hm2])
      simp [encodeBudget, parseOptBudget, parseOptBoundedInt, jlookup, hm2,
        Rat.den_intCast, Rat.num_intCast, this.1, this.2]
  | some m =>
    have hb := hms m (by rw [hm])
    cases hm2 : mt with
    | none =>
      simp [encodeBudget, parseOptBudget, parseOptBoundedInt, jlookup, hm, hm2,
        Rat.den_intCast, Rat.num_intCast, hb.1, hb.2]
    | some m2 =>
      have hb2 := hmt m2 (by rw [hm2])
      simp [encodeBudget, parseOptBudget, parseOptBoundedInt, jlookup, hm, hm2,
        Rat.den_intCast, Rat.num_intCast, hb.1, hb.2, hb2.1, hb2.2]

lemma parseStepsJson_none_of_mem (xs : List JVal) (x : JVal) (hx : x ∈ xs)
    (hnone : parseStepJson x = none) : parseStepsJson xs = none := by
  induction xs with
  | nil => exact absurd hx (List.not_mem_nil x)
  | cons y ys ih =>
    rcases List.mem_cons.mp hx with hxy | hmem
    · subst hxy
      rw [parseStepsJson, hnone]
    · rw [parseStepsJson]
      cases hy : parseStepJson y with
      | none => rfl
      | some sy =>
        rw [ih hmem]

lemma parseStepJson_none_bad_tool (gs : List (String × JVal)) (t : String)
    (ht : jlookup gs "tool" = some (.jstr t)) (hnone : toolNameOfString t = none) :
    parseStepJson (.jobj gs) = none := by
  unfold parseStepJson
  dsimp only
  rcases jlookup gs "id" with _ | v
  · rfl
  · cases v with
    | jstr s =>
      dsimp only
      by_cases hl : s.length ≥ 1
      · rw [if_pos hl, ht]
        dsimp only
        rw [hnone]
      · rw [if_neg hl]
    | jnull => rfl
    | jbool b => rfl
    | jnum q => rfl
    | jarr xs => rfl
    | jobj fs2 => rfl

lemma parseStepJson_none_bad_args (gs : List (String × JVal)) (v : JVal)
    (ha : jlookup gs "args" = some v) (hv : ∀ afs, v ≠ JVal.jobj afs) :
    parseStepJson (.jobj gs) = none := by
  unfold parseStepJson
  dsimp only
  rcases jlookup gs "id" with _ | w
  · rfl
  · cases w with
    | jstr s =>
      dsimp only
      by_cases hl : s.length ≥ 1
      · rw [if_pos hl]
        rcases jlookup gs "tool" with _ | w2
        · rfl
        · cases w2 with
          | jstr t =>
            dsimp only
            rcases htool : toolNameOfString t with _ | tn
            · rfl
            · rw [ha]
              dsimp only
              cases v with
              | jobj afs => exact absurd rfl (hv afs)
              | jnull => rfl
              | jbool b => rfl
              | jnum q => rfl
              | jstr s2 => rfl
              | jarr xs => rfl
          | jnull => rfl
          | jbool b => rfl
          | jnum q => rfl
          | jarr xs => rfl
          | jobj fs2 => rfl
      · rw [if_neg hl]
    | jnull => rfl
    | jbool b => rfl
    | jnum q => rfl
    | jarr xs => rfl
    | jobj fs2 => rfl

/-- C5: `validatePlan` (the `PlanSchema.safeParse` gate) rejects a candidate
whose steps array is empty or longer than 50, any step whose `tool` is not one
of the seven recognized names, and any step whose `args` is not an object; and
for every already-valid plan (1–50 steps, nonempty ids, object args, in-range
budget) it returns the same structural shape unchanged (parsing the canonical
encoding yields the plan itself). -/
theorem c5_validate_plan :
    (∀ fs : List (String × JVal), jlookup fs "steps" = some (.jarr []) →
      validatePlan (.jobj fs) = none) ∧
    (∀ (fs : List (String × JVal)) (xs : List JVal),
      jlookup fs "steps" = some (.jarr xs) → 50 < xs.length →
      validatePlan (.jobj fs) = none) ∧
    (∀ (fs gs : List (String × JVal)) (xs : List JVal) (t : String),
      jlookup fs "steps" = some (.jarr xs) → JVal.jobj gs ∈ xs →
      jlookup gs "tool" = some (.jstr t) → toolNameOfString t = none →
      validatePlan (.jobj fs) = none) ∧
    (∀ (fs gs : List (String × JVal)) (xs : List JVal) (v : JVal),
      jlookup fs "steps" = some (.jarr xs) → JVal.jobj gs ∈ xs →
      jlookup gs "args" = some v → (∀ afs, v ≠ JVal.jobj afs) →
      validatePlan (.jobj fs) = none) ∧
    (∀ p : Plan, ValidPlan p → validatePlan (encodePlan p) = some p) := by
  refine ⟨?_, ?_, ?_, ?_, ?_⟩
  · intro fs h
    unfold validatePlan
    dsimp only
    rw [h]
    dsimp only
    rw [if_neg (by simp)]
  · intro fs xs h hlen
    unfold validatePlan
    dsimp only
    rw [h]
    dsimp only
    rw [if_neg (by omega)]
  · intro fs gs xs t h hmem ht hnone
    unfold validatePlan
    dsimp only
    rw [h]
    dsimp only
    by_cases hb : 1 ≤ xs.length ∧ xs.length ≤ 50
    · rw [if_pos hb,
        parseStepsJson_none_of_mem xs _ hmem (parseStepJson_none_bad_tool gs t ht hnone)]
    · rw [if_neg hb]
  · intro fs gs xs v h hmem ha hv
    unfold validatePlan
    dsimp only
    rw [h]
    dsimp only
    by_cases hb : 1 ≤ xs.length ∧ xs.length ≤ 50
    · rw [if_pos hb,
        parseStepsJson_none_of_mem xs _ hmem (parseStepJson_none_bad_args gs v ha hv)]
    · rw [if_neg hb]
  · intro p hval
    rcases p with ⟨steps, spec, budget⟩
    obtain ⟨h1, h2, h3, h4⟩ := hval
    have hsteps := parseStepsJson_encode steps h3
    cases spec with
    | none =>
      cases budget with
      | none =>
        simp [encodePlan, validatePlan, jlookup, List.length_map, h1, h2, hsteps,
          parseOptSpecialist, parseOptBudget]
      | some b =>
        have hbud := parseOptBudget_encode b (fun m hm => ((h4 b rfl).1 m hm))
          (fun m hm => ((h4 b rfl).2 m hm))
        simp [encodePlan, validatePlan, jlookup, List.length_map, h1, h2, hsteps,
          parseOptSpecialist, hbud]
    | some sp =>
      cases budget with
      | none =>
        simp [encodePlan, validatePlan, jlookup, List.length_map, h1, h2, hsteps,
          parseOptSpecialist, specialistOfString_str, parseOptBudget]
      | some b =>
        have hbud := parseOptBudget_encode b (fun m hm => ((h4 b rfl).1 m hm))
          (fun m hm => ((h4 b rfl).2 m hm))
        simp [encodePlan, validatePlan, jlookup, List.length_map, h1, h2, hsteps,
          parseOptSpecialist, specialistOfString_str, hbud]

theorem c5_validate_plan_witness :
    validatePlan (.jobj [("steps", .jarr [])]) = none ∧
    validatePlan (.jobj [("steps", .jarr (List.replicate 51 .jnull))]) = none ∧
    validatePlan (.jobj [("steps", .jarr
      [.jobj [("id", .jstr "s1"), ("tool", .jstr "map.fly"),
              ("args", .jobj [])]])]) = none ∧
    validatePlan (.jobj [("steps", .jarr
      [.jobj [("id", .jstr "s1"), ("tool", .jstr "map.focus"),
              ("args", .jstr "boom")]])]) = none ∧
    validatePlan (encodePlan c5Plan) = some c5Plan := by
  refine ⟨c5_validate_plan.1 _ rfl,
    c5_validate_plan.2.1 _ _ rfl (by simp),
    c5_validate_plan.2.2.1 _
      [("id", .jstr "s1"), ("tool", .jstr "map.fly"), ("args", .jobj [])]
      _ "map.fly" rfl (by simp) rfl rfl,
    c5_validate_plan.2.2.2.1 _
      [("id", .jstr "s1"), ("tool", .jstr "map.focus"), ("args", .jstr "boom")]
      _ (.jstr "boom") rfl (by simp) rfl (fun afs => by simp),
    c5_validate_plan.2.2.2.2 c5Plan ?_⟩
  refine ⟨by simp [c5Plan], by simp [c5Plan], ?_, ?_⟩
  · intro s hs
    rcases List.mem_singleton.mp hs with rfl
    exact ⟨by simp, ⟨[("zoom", .jnum 12)], rfl⟩⟩
  · intro b hb
    rcases Option.some.inj hb with rfl
    constructor
    · intro m hm
      rcases Option.some.inj hm with rfl
      omega
    · intro m hm
      rcases Option.some.inj hm with rfl
      omega

/-- C4: evaluating the drawRoute stage coercion at the claim's own example
refutes the claimed chaining.  `coerceAsync` reads
`itinerary?.[stageIndex-1]?.to` while `itinerary` is the very array being
built, so the lookup is always `undefined` and a non-first stage missing its
`from` becomes the literal fallback `"Previous"` — it does not inherit leg 1's
(unresolved, `"Unknown"`) `to`, and the two differ.  The executor's sibling
heuristic `extractItineraryFromPlan` (same repository, same inputs) does chain
as the claim describes, yielding `"Unknown"` for leg 2's `from` — evidence the
coercion's dead chaining expression is a slip, not intent. -/
theorem c4_stage_chaining_bug :
    coerceStageItinerary c4args =
      some [ { day := 1, lfrom := some "Sarria", lto := some "Unknown" },
             { day := 2, lfrom := some "Previous", lto := some "Santiago" } ] ∧
    ((coerceStageItinerary c4args).getD []).map Leg.lfrom =
      [some "Sarria", some "Previous"] ∧
    ((coerceStageItinerary c4args).getD []).map Leg.lto =
      [some "Unknown", some "Santiago"] ∧
    (some "Previous" : Option String) ≠ some "Unknown" ∧
    extractItineraryFromPlan
        { steps := [{ id := "s2", tool := .mapDrawRoute, args := c4args }] } =
      some [ { day := 1, lfrom := some "Sarria", lto := some "Unknown" },
             { day := 2, lfrom := some "Unknown", lto := some "Santiago" } ] :=
  ⟨rfl, rfl, rfl, by simp, rfl⟩
